import Mathlib

/-!
# go-coze: streaming chat engine (chat.go, bot.go)

A shallow embedding of the frame parser (`handleChatSync`, `handleScanEvent`),
the event buffer with its replay cursor (`ChatRsp.Stream`) and the result
accumulator (`ChatRsp.GetResult`).

Modelling conventions.

* A response body is the list of lines that `bufio.Scanner` hands out, in order.
* `*ChatEvent` values live in an explicit heap (`List ChatEvent`, an address is an
  index), because both read loops append the *same* pointer for every `data:`
  line that follows one `event:` line and then write through it.  The payload
  `*ChatEventData` is kept by value inside its event cell (`none` is the nil
  pointer): no payload struct is written after another event has taken over.
* `encoding/json` is outside the repository; it is a parameter (`Json`).
* A nil-pointer dereference is an explicit outcome (`Run.fault`, `Exit.fault`).
* `Stream.step` / `Stream.run` is one cursor against a buffer that no longer
  changes, its consumer taking every event.  `World.step` interleaves the pump
  with any number of cursors and makes the mutex `cond.L`, `cond.Wait` and the
  unbuffered channel `evch` explicit; a schedule is a list of moves.
-/

namespace Coze

/-! ## Constants (chat.go 27-56) -/

def TypeAnswer : String := "answer"
def TypeFollowUp : String := "follow_up"

def ChatInProgress : String := "conversation.chat.in_progress"
def ChatCompleted : String := "conversation.chat.completed"
def ChatFailed : String := "conversation.chat.failed"
def MessageDelta : String := "conversation.message.delta"
def MessageCompleted : String := "conversation.message.completed"
def EventDone : String := "done"
def EventPrefixEvent : String := "event:"
def EventPrefixData : String := "data:"

/-! ## strings.HasPrefix / strings.TrimPrefix -/

/-- Go `strings.HasPrefix(s, pre)`. -/
def HasPrefix (s pre : String) : Bool := pre.data.isPrefixOf s.data

/-- Go `strings.TrimPrefix(s, pre)`: `s` without the leading `pre`, or `s` itself. -/
def TrimPrefix (s pre : String) : String :=
  if HasPrefix s pre then ⟨s.data.drop pre.data.length⟩ else s

/-! ## Data model (chat.go 73-133, bot.go 40-43) -/

structure ErrorWrap where
  Code : Int
  Msg : String
deriving DecidableEq, Repr

structure ChatUsage where
  TokenCount : Int
  OutputCount : Int
  InputCount : Int
deriving DecidableEq, Repr

structure ChatEventData where
  Id : String
  ConversationId : String
  BotId : String
  ChatId : String
  Role : String
  Typ : String
  Content : String
  ContentType : String
  CompletedAt : Int
  LastError : Option ErrorWrap
  Status : String
  Usage : Option ChatUsage
deriving DecidableEq, Repr

structure ChatEvent where
  Event : String
  Data : Option ChatEventData
deriving DecidableEq, Repr

structure ChatReturnWrap where
  ErrorWrap : Option ErrorWrap
  Data : Option ChatEventData
deriving DecidableEq, Repr

structure ChatResult where
  ConversationId : String
  ChatId : String
  Answer : String
  FollowUp : List String
  CompletedAt : Int
  Usage : Option ChatUsage
  LastError : Option ErrorWrap
deriving DecidableEq, Repr

/-- Go `new(ErrorWrap)`. -/
def ErrorWrap.zero : ErrorWrap := ⟨0, ""⟩

/-- Go `new(ChatEventData)`. -/
def ChatEventData.zero : ChatEventData :=
  ⟨"", "", "", "", "", "", "", "", 0, none, "", none⟩

/-- Go `new(ChatResult)`. -/
def ChatResult.zero : ChatResult := ⟨"", "", "", [], 0, none, none⟩

/-- The handle: `Return`, `done` and `buff` of `ChatRsp`; `heap` holds the
`ChatEvent` objects that the pointers in `buff` refer to. -/
structure ChatRsp where
  Return : Option ChatReturnWrap
  done : Bool
  heap : List ChatEvent
  buff : List Nat
deriving DecidableEq, Repr

/-- The buffer as readers see it: every pointer of `buff` dereferenced. -/
def ChatRsp.events (rsp : ChatRsp) : List ChatEvent :=
  rsp.buff.filterMap (fun a => rsp.heap[a]?)

/-! ## encoding/json, as a parameter -/

/-- What `json.Unmarshal` makes of the top-level text. -/
inductive JsonKind where
  | invalid
  | null
  | object
  | other
deriving DecidableEq, Repr

/-- The decoder: the kind of a text, and the effect of a JSON object's members
on a struct that is decoded into. -/
structure Json where
  kind : String → JsonKind
  intoData : String → ChatEventData → ChatEventData
  intoError : String → ErrorWrap → ErrorWrap

/-- Go `json.Unmarshal(text, d)` for `d : *ChatEventData` (error dropped): only an
object writes fields; `null`, other values and invalid text leave `*d` as it is. -/
def UnmarshalData (J : Json) (text : String) (d : ChatEventData) : ChatEventData :=
  match J.kind text with
  | .object => J.intoData text d
  | _ => d

/-- Go `json.Unmarshal(text, &p)` for `p : *ChatEventData` (error dropped): invalid
text changes nothing, `null` sets `p` to nil, anything else allocates when `p`
is nil and decodes into `*p` in place. -/
def UnmarshalDataPtr (J : Json) (text : String) (p : Option ChatEventData) :
    Option ChatEventData :=
  match J.kind text with
  | .invalid => p
  | .null => none
  | .object => some (J.intoData text (p.getD ChatEventData.zero))
  | .other => some (p.getD ChatEventData.zero)

/-- Go `json.Unmarshal(text, e)` for `e : *ErrorWrap` (error dropped). -/
def UnmarshalError (J : Json) (text : String) (e : ErrorWrap) : ErrorWrap :=
  match J.kind text with
  | .object => J.intoError text e
  | _ => e

/-! ## Read loops (chat.go 179-235) -/

/-- The locals and shared storage of a read loop: the `event` pointer, the heap
of events and `rsp.buff`. -/
structure Scan where
  event : Option Nat
  heap : List ChatEvent
  buff : List Nat
deriving DecidableEq, Repr

/-- The buffer of a read loop as readers see it. -/
def Scan.events (s : Scan) : List ChatEvent :=
  s.buff.filterMap (fun a => s.heap[a]?)

/-- How a read loop is left. -/
inductive Exit where
  | eof
  | brk
  | error (e : ErrorWrap)
  | fault
deriving DecidableEq, Repr

/-- One iteration of the loop of `handleChatSync` (chat.go 184-201); `none`
means the loop goes on. -/
def handleChatSync.row (J : Json) (s : Scan) (row : String) : Scan × Option Exit :=
  if s.event.isNone && !HasPrefix row EventPrefixEvent then
    (s, some (.error (UnmarshalError J row ErrorWrap.zero)))
  else if HasPrefix row EventPrefixEvent then
    ({ s with event := some s.heap.length,
              heap := s.heap ++ [⟨TrimPrefix row EventPrefixEvent, some ChatEventData.zero⟩] },
     none)
  else if HasPrefix row EventPrefixData then
    match s.event with
    | none => (s, some .fault)
    | some a =>
      match s.heap[a]? with
      | none => (s, some .fault)
      | some ev =>
        let ev1 : ChatEvent :=
          { ev with Data := UnmarshalDataPtr J (TrimPrefix row EventPrefixData) ev.Data }
        let s1 : Scan := { s with heap := s.heap.set a ev1, buff := s.buff ++ [a] }
        if ev1.Event = ChatInProgress then (s1, some .brk) else (s1, none)
  else (s, none)

/-- The loop of `handleChatSync`: final locals, how the loop ended, unread lines. -/
def handleChatSync.loop (J : Json) : Scan → List String → Scan × Exit × List String
  | s, [] => (s, .eof, [])
  | s, row :: rows =>
    match handleChatSync.row J s row with
    | (s1, none) => handleChatSync.loop J s1 rows
    | (s1, some x) => (s1, x, rows)

/-- One iteration of the loop of `handleScanEvent` (chat.go 210-231). -/
def handleScanEvent.row (J : Json) (s : Scan) (row : String) : Scan × Option Exit :=
  if row = "" then (s, none)
  else if HasPrefix row EventPrefixEvent then
    ({ s with event := some s.heap.length,
              heap := s.heap ++ [⟨TrimPrefix row EventPrefixEvent, none⟩] },
     none)
  else if HasPrefix row EventPrefixData then
    match s.event with
    | none => (s, some .fault)
    | some a =>
      match s.heap[a]? with
      | none => (s, some .fault)
      | some ev =>
        let ev1 : ChatEvent :=
          if ev.Event ≠ EventDone then
            { ev with Data := some (UnmarshalData J (TrimPrefix row EventPrefixData)
                                      ChatEventData.zero) }
          else ev
        let s1 : Scan := { s with heap := s.heap.set a ev1, buff := s.buff ++ [a] }
        if ev1.Event = EventDone ∨ ev1.Event = ChatFailed then (s1, some .brk) else (s1, none)
  else (s, none)

/-- The loop of `handleScanEvent`. -/
def handleScanEvent.loop (J : Json) : Scan → List String → Scan × Exit × List String
  | s, [] => (s, .eof, [])
  | s, row :: rows =>
    match handleScanEvent.row J s row with
    | (s1, none) => handleScanEvent.loop J s1 rows
    | (s1, some x) => (s1, x, rows)

/-- A turn as the world sees it: the handle, the lines the scanner has not yet
handed out, whether the body was closed, whether the pump was submitted, and
whether a goroutine died of a nil dereference. -/
structure Turn where
  rsp : ChatRsp
  rows : List String
  bodyClosed : Bool
  pump : Bool
  fault : Bool
deriving DecidableEq, Repr

/-- The pump `handleScanEvent` (chat.go 207-235), run to its end on the unread
lines.  After the loop it sets `done` and closes the body; a nil dereference
inside the loop ends the goroutine before either happens. -/
def handleScanEvent (J : Json) (t : Turn) : Turn :=
  match handleScanEvent.loop J ⟨none, t.rsp.heap, t.rsp.buff⟩ t.rows with
  | (s, .fault, rest) =>
    { t with rsp := { t.rsp with heap := s.heap, buff := s.buff }, rows := rest, fault := true }
  | (s, _, rest) =>
    { t with rsp := { t.rsp with heap := s.heap, buff := s.buff, done := true },
             rows := rest, bodyClosed := true }

/-- The handle that `Chat` builds for a streaming request (chat.go 150-153). -/
def ChatRsp.new : ChatRsp := ⟨none, false, [], []⟩

/-- The bootstrap `handleChatSync` (chat.go 179-205) up to the point where it
returns: the error it returns, if any, and the turn with the pump submitted but
not yet run. -/
def handleChatSync (J : Json) (body : List String) : Option ErrorWrap × Turn :=
  match handleChatSync.loop J ⟨none, [], []⟩ body with
  | (s, .error e, rest) =>
    (some e, ⟨{ ChatRsp.new with heap := s.heap, buff := s.buff }, rest, true, false, false⟩)
  | (s, .fault, rest) =>
    (none, ⟨{ ChatRsp.new with heap := s.heap, buff := s.buff }, rest, false, false, true⟩)
  | (s, .brk, rest) =>
    (none, ⟨{ ChatRsp.new with heap := s.heap, buff := s.buff,
                                Return := some ⟨none, (s.event.bind (fun a => s.heap[a]?)).bind
                                                        (fun ev => ev.Data)⟩ },
            rest, false, true, false⟩)
  | (s, .eof, rest) =>
    (none, ⟨{ ChatRsp.new with heap := s.heap, buff := s.buff }, rest, false, true, false⟩)

/-- The response that `Chat` works on once the request has been posted: the
lines of a streamed body, or the deserialised non-streaming object. -/
inductive Response where
  | stream (body : List String)
  | plain (ret : ChatReturnWrap)

/-- What `Chat` returns (chat.go 164-176): the handle or the error, never both.
For a streaming turn the returned turn has the pump submitted, not yet run. -/
def Chat (J : Json) : Response → Option Turn × Option ErrorWrap
  | .stream body =>
    match handleChatSync J body with
    | (some e, _) => (none, some e)
    | (none, t) => (some t, none)
  | .plain ret =>
    match ret.ErrorWrap with
    | some e =>
      if e.Code > 0 then (none, some e)
      else (some ⟨⟨some ret, true, [⟨ChatInProgress, ret.Data⟩], [0]⟩, [], false, false, false⟩, none)
    | none =>
      (some ⟨⟨some ret, true, [⟨ChatInProgress, ret.Data⟩], [0]⟩, [], false, false, false⟩, none)

/-- A turn after its background work has run to the end: the pump, when one was
submitted, has consumed what it reads. -/
def Turn.settle (J : Json) (t : Turn) : Turn :=
  if t.pump then handleScanEvent J t else t

/-! ## Replay cursor (chat.go 239-269) -/

/-- Where the goroutine of `Stream` stands: at the loop head, inside the
`cond.Wait` loop, or past `close(evch)`. -/
inductive Pc where
  | head
  | wait
  | closed
deriving DecidableEq, Repr

/-- One `Stream()` call: control point, index `i`, and what it has sent on `evch`. -/
structure Cursor where
  pc : Pc
  i : Nat
  sent : List ChatEvent
deriving DecidableEq, Repr

def Cursor.new : Cursor := ⟨.head, 0, []⟩

/-- One step of the goroutine of `Stream` against the current buffer and `done`
flag (chat.go 242-266).  In `wait` with nothing at index `i` the step is the
blocked `cond.Wait()`: the cursor stays as it is. -/
def Stream.step (buff : List ChatEvent) (done : Bool) (c : Cursor) : Cursor :=
  match c.pc with
  | .head =>
    if c.i < buff.length || !done then
      match buff[c.i]? with
      | some ev =>
        if ev.Event = EventDone then { c with pc := .closed }
        else { c with i := c.i + 1, sent := c.sent ++ [ev] }
      | none => { c with pc := .wait }
    else { c with pc := .closed }
  | .wait =>
    match buff[c.i]? with
    | none => c
    | some ev =>
      if ev.Event = EventDone then { c with pc := .closed }
      else { c with pc := .head, i := c.i + 1, sent := c.sent ++ [ev] }
  | .closed => c

/-- The goroutine of `Stream` run for `n` steps against a buffer that no longer
changes. -/
def Stream.run (buff : List ChatEvent) (done : Bool) : Nat → Cursor → Cursor
  | 0, c => c
  | n + 1, c => Stream.run buff done n (Stream.step buff done c)

/-- A `Stream()` call on a handle whose pump has finished, driven by a receiver
that takes every event: the cursor after `len(buff) + 1` steps. -/
def ChatRsp.Stream (rsp : ChatRsp) : Cursor :=
  Stream.run rsp.events rsp.done (rsp.events.length + 1) Cursor.new

/-! ## Result accumulator (chat.go 271-305) -/

/-- Outcome of code that may dereference nil. -/
inductive Run (α : Type) where
  | ok (a : α)
  | fault
deriving DecidableEq, Repr

/-- The locals of `GetResult`: `result` and the `strings.Builder` `buff`. -/
structure Acc where
  result : ChatResult
  buff : String
deriving DecidableEq, Repr

def Acc.new : Acc := ⟨ChatResult.zero, ""⟩

/-- The `switch ev.Event` of `GetResult` (chat.go 285-302) for one received event. -/
def GetResult.event (st : Acc) (ev : ChatEvent) : Run Acc :=
  if ev.Event = ChatInProgress then
    match ev.Data with
    | none => .fault
    | some d =>
      .ok { st with result := { st.result with ConversationId := d.ConversationId, ChatId := d.Id } }
  else if ev.Event = ChatCompleted then
    match ev.Data with
    | none => .fault
    | some d =>
      .ok { st with result := { st.result with Usage := d.Usage, CompletedAt := d.CompletedAt } }
  else if ev.Event = MessageDelta then
    match ev.Data with
    | none => .fault
    | some d =>
      .ok { result := { st.result with Answer := st.buff ++ d.Content },
            buff := st.buff ++ d.Content }
  else if ev.Event = MessageCompleted then
    match ev.Data with
    | none => .fault
    | some d =>
      if d.Typ = TypeAnswer then
        .ok { st with result := { st.result with Answer := d.Content } }
      else if d.Typ = TypeFollowUp then
        .ok { st with result := { st.result with FollowUp := st.result.FollowUp ++ [d.Content] } }
      else .ok st
  else if ev.Event = ChatFailed then
    match ev.Data with
    | none => .fault
    | some d => .ok { st with result := { st.result with LastError := d.LastError } }
  else .ok st

/-- The receive loop of `GetResult` over the events its stream delivers before
the channel is closed, the context never being cancelled. -/
def GetResult.loop : Acc → List ChatEvent → Run Acc
  | st, [] => .ok st
  | st, ev :: evs =>
    match GetResult.event st ev with
    | .ok st1 => GetResult.loop st1 evs
    | .fault => .fault

/-- `GetResult` over a delivered event sequence followed by end-of-stream. -/
def GetResult (delivered : List ChatEvent) : Run ChatResult :=
  match GetResult.loop Acc.new delivered with
  | .ok st => .ok st.result
  | .fault => .fault

/-- `rsp.GetResult(ctx)` on a handle whose pump has finished: the fold of what
its own `Stream()` call delivers. -/
def ChatRsp.GetResult (rsp : ChatRsp) : Run ChatResult :=
  Coze.GetResult rsp.Stream.sent


/-- The `select` loop of `GetResult` (chat.go 275-304) when the context may be
cancelled: `cancel = some k` is the run in which the `ctx.Done()` case is taken
once `k` events have been received, `none` the run in which it never is.  A
closed channel ends the loop as well. -/
def GetResult.select : Acc → List ChatEvent → Option Nat → Run ChatResult
  | st, _, some 0 => .ok st.result
  | st, [], _ => .ok st.result
  | st, ev :: evs, cancel =>
    match GetResult.event st ev with
    | .ok st1 => GetResult.select st1 evs (cancel.map Nat.pred)
    | .fault => .fault

/-! ## One pump and its cursors, step by step (chat.go 207-269)

The same two pieces of code as above, with the mutex `cond.L` and the unbuffered
channel `evch` made explicit.  A step of a goroutine is enabled only when the
lock it needs is free and, for a send, when its consumer still receives. -/

/-- Control points of the goroutine of `Stream`: the loop head (chat.go 242), the
send outside the lock (247), the `Lock` (251), `cond.Wait` (253), the send under
the lock (260), and past `close(evch)` (266). -/
inductive RPc where
  | head
  | send
  | lock
  | wait
  | sendLocked
  | closed
deriving DecidableEq, Repr

/-- One `Stream()` goroutine with its consumer: `recv` tells whether the consumer
still receives from `evch`. -/
structure Reader where
  pc : RPc
  i : Nat
  sent : List ChatEvent
  recv : Bool
deriving DecidableEq, Repr

def Reader.new : Reader := ⟨.head, 0, [], true⟩

/-- Control points of `handleScanEvent`: in its loop, past the loop before
`*done = true`, returned, or dead of a nil dereference. -/
inductive PumpPc where
  | reading
  | closing
  | finished
  | faulted
deriving DecidableEq, Repr

/-- The shared state of a streaming turn: pump locals with heap and `rsp.buff`,
unread lines, pump control point, `rsp.done`, the holder of `cond.L` (a reader
index; the pump holds it only inside its own step) and the readers. -/
structure World where
  scan : Scan
  rows : List String
  pump : PumpPc
  done : Bool
  lock : Option Nat
  readers : List Reader
deriving DecidableEq, Repr

/-- One step of the pump: one iteration of its loop (chat.go 209-231), blocked
while a reader holds the lock if the iteration appends; or, past the loop,
`*done = true` (chat.go 233), which wakes nobody. -/
def World.pumpStep (J : Json) (w : World) : Option World :=
  match w.pump with
  | .reading =>
    match w.rows with
    | [] => some { w with pump := .closing }
    | row :: rest =>
      match handleScanEvent.row J w.scan row with
      | (s1, x) =>
        if s1.buff ≠ w.scan.buff ∧ w.lock.isSome = true then none
        else
          some { w with scan := s1, rows := rest,
                        pump := match x with
                          | none => .reading
                          | some .fault => .faulted
                          | some _ => .closing }
  | .closing => some { w with done := true, pump := .finished }
  | .finished => none
  | .faulted => none

/-- One step of reader `j` (chat.go 242-266); `none` when the goroutine is
blocked or has ended. -/
def World.readerStep (w : World) (j : Nat) : Option World :=
  match w.readers[j]? with
  | none => none
  | some c =>
    match c.pc with
    | .head =>
      if c.i < w.scan.events.length || !w.done then
        match w.scan.events[c.i]? with
        | some ev =>
          if ev.Event = EventDone then
            some { w with readers := w.readers.set j { c with pc := .closed } }
          else some { w with readers := w.readers.set j { c with pc := .send } }
        | none => some { w with readers := w.readers.set j { c with pc := .lock } }
      else some { w with readers := w.readers.set j { c with pc := .closed } }
    | .send =>
      match w.scan.events[c.i]? with
      | some ev =>
        if c.recv then
          some { w with readers :=
            w.readers.set j { c with pc := .head, i := c.i + 1, sent := c.sent ++ [ev] } }
        else none
      | none => none
    | .lock =>
      if w.lock.isSome then none
      else
        match w.scan.events[c.i]? with
        | none => some { w with readers := w.readers.set j { c with pc := .wait } }
        | some ev =>
          if ev.Event = EventDone then
            some { w with readers := w.readers.set j { c with pc := .closed } }
          else
            some { w with lock := some j,
                          readers := w.readers.set j { c with pc := .sendLocked } }
    | .wait =>
      if w.lock.isSome then none
      else
        match w.scan.events[c.i]? with
        | none => none
        | some ev =>
          if ev.Event = EventDone then
            some { w with readers := w.readers.set j { c with pc := .closed } }
          else
            some { w with lock := some j,
                          readers := w.readers.set j { c with pc := .sendLocked } }
    | .sendLocked =>
      match w.scan.events[c.i]? with
      | some ev =>
        if c.recv then
          some { w with lock := none,
                        readers := w.readers.set j
                          { c with pc := .head, i := c.i + 1, sent := c.sent ++ [ev] } }
        else none
      | none => none
    | .closed => none

/-- The consumer of reader `j` stops receiving: its `GetResult` has returned on
`ctx.Done()` (chat.go 277-278). -/
def World.cancel (w : World) (j : Nat) : Option World :=
  match w.readers[j]? with
  | none => none
  | some c => some { w with readers := w.readers.set j { c with recv := false } }

/-- Who moves. -/
inductive Act where
  | pump
  | reader (j : Nat)
  | cancel (j : Nat)
deriving DecidableEq, Repr

def World.step (J : Json) (w : World) : Act → Option World
  | .pump => w.pumpStep J
  | .reader j => w.readerStep j
  | .cancel j => w.cancel j

/-- A schedule carried out from `w`; `none` when one of its moves is not enabled. -/
def World.run (J : Json) : World → List Act → Option World
  | w, [] => some w
  | w, a :: as =>
    match w.step J a with
    | some w1 => World.run J w1 as
    | none => none

/-- No goroutine of the turn can move. -/
def World.stuck (J : Json) (w : World) : Bool :=
  (w.pumpStep J).isNone && (List.range w.readers.length).all (fun j => (w.readerStep j).isNone)

/-- What matters of a world for the liveness claims: `done`, the pump's control
point, the lock holder, the unread lines, each reader's control point, index
and consumer flag, the kinds in the buffer, and whether nothing can move. -/
structure World.View where
  done : Bool
  pump : PumpPc
  lock : Option Nat
  rows : List String
  readers : List (RPc × Nat × Bool)
  kinds : List String
  stuck : Bool
deriving DecidableEq, Repr

def World.view (J : Json) (w : World) : World.View :=
  ⟨w.done, w.pump, w.lock, w.rows, w.readers.map (fun c => (c.pc, c.i, c.recv)),
    w.scan.events.map (fun e => e.Event), w.stuck J⟩

/-- The world right after `Chat` has returned a streaming handle, with `n`
`Stream()` calls made on it. -/
def World.start (t : Turn) (n : Nat) : World :=
  ⟨⟨none, t.rsp.heap, t.rsp.buff⟩, t.rows, if t.pump then .reading else .finished,
    t.rsp.done, none, List.replicate n Reader.new⟩

/-! ## A decoder for the worked examples -/

/-- The text `v` of a payload written exactly `\x7b"id":"v"\x7d`, `v` free of quotes. -/
def Json.idOf (text : String) : Option String :=
  let pre : List Char := ['\x7b', '"', 'i', 'd', '"', ':', '"']
  let suf : List Char := ['"', '\x7d']
  if pre.isPrefixOf text.data && suf.isSuffixOf text.data
      && decide (pre.length + suf.length ≤ text.data.length) then
    let v := (text.data.drop pre.length).take (text.data.length - pre.length - suf.length)
    if v.contains '"' then none else some ⟨v⟩
  else none

/-- A decoder that agrees with `encoding/json` on the payloads of the worked
examples: the literal `null`, the empty object, and an object whose only member
is a string `id`.  Every other text is `invalid` for it. -/
def Json.sample : Json where
  kind := fun text =>
    if text = "null" then .null
    else if text = "\x7b\x7d" ∨ (Json.idOf text).isSome then .object
    else .invalid
  intoData := fun text d =>
    match Json.idOf text with
    | some v => { d with Id := v }
    | none => d
  intoError := fun _ e => e

/-! ## Definitions used to state the properties -/

/-- The accumulator after a run of `message.delta` payloads. -/
def Acc.afterDeltas (st : Acc) (ds : List ChatEventData) : Acc :=
  ds.foldl (fun a d => ⟨{ a.result with Answer := a.buff ++ d.Content }, a.buff ++ d.Content⟩) st

/-- The `last_error` field of the last `chat.failed` event of a sequence; nil when
there is none. -/
def lastFailedError (evs : List ChatEvent) : Option ErrorWrap :=
  ((evs.filter (fun e => decide (e.Event = ChatFailed))).getLast?.bind (fun e => e.Data)).bind
    (fun d => d.LastError)

/-- An event that `GetResult` reads the payload of: one of the five kinds of its
`switch`. -/
def ChatEvent.isRead (ev : ChatEvent) : Bool :=
  decide (ev.Event = ChatInProgress) || decide (ev.Event = ChatCompleted) ||
  decide (ev.Event = MessageDelta) || decide (ev.Event = MessageCompleted) ||
  decide (ev.Event = ChatFailed)

/-- The turn at the moment the pump takes over a body: fresh handle, pump submitted. -/
def Turn.handoff (rsp : ChatRsp) (rows : List String) : Turn :=
  ⟨rsp, rows, false, true, false⟩

/-- A line that is empty or holds white space only. -/
def isBlank (row : String) : Bool := row.data.all Char.isWhitespace

/-- A well-formed body: for each frame `(kind, payload text)` one `event:` line
followed by one `data:` line. -/
def wire : List (String × String) → List String
  | [] => []
  | (K, P) :: fs => (EventPrefixEvent ++ K) :: (EventPrefixData ++ P) :: wire fs

/-- The event that the bootstrap makes of a frame. -/
def bootEvent (J : Json) (f : String × String) : ChatEvent :=
  ⟨f.1, UnmarshalDataPtr J f.2 (some ChatEventData.zero)⟩

/-- An event that the claim on ignored events speaks of: its kind is none of the
five of the `switch`, or it is a `message.completed` whose type is neither
`answer` nor `follow_up`. -/
def ChatEvent.isSkipped (ev : ChatEvent) : Bool :=
  !ev.isRead ||
  (decide (ev.Event = MessageCompleted) &&
    match ev.Data with
    | some d => decide (d.Typ ≠ TypeAnswer) && decide (d.Typ ≠ TypeFollowUp)
    | none => false)

/-- The `content` field of an event's payload. -/
def ChatEvent.content (ev : ChatEvent) : String :=
  match ev.Data with
  | some d => d.Content
  | none => ""

def ChatEvent.isDelta (ev : ChatEvent) : Bool := decide (ev.Event = MessageDelta)

/-- A `message.completed` event of type `answer`. -/
def ChatEvent.isAnswer (ev : ChatEvent) : Bool :=
  decide (ev.Event = MessageCompleted) &&
    match ev.Data with
    | some d => decide (d.Typ = TypeAnswer)
    | none => false

/-- The contents of all `message.delta` events of a sequence, concatenated in
order behind `init`. -/
def deltaText (init : String) (evs : List ChatEvent) : String :=
  (evs.filter ChatEvent.isDelta).foldl (fun acc e => acc ++ e.content) init

/-- The answer as the last `message.delta` or `message.completed(answer)` event
of a sequence determines it. -/
def answerOf (evs : List ChatEvent) : String :=
  match (evs.filter (fun e => e.isDelta || e.isAnswer)).getLast? with
  | none => ""
  | some e => if e.isDelta then deltaText "" evs else e.content

/-- Every pointer of a read loop refers to an allocated event. -/
def Scan.Valid (s : Scan) : Prop :=
  (∀ a ∈ s.buff, a < s.heap.length) ∧ (∀ a, s.event = some a → a < s.heap.length)

/-- The kinds of the events in the buffer, in order.  The kind of an event is
written once, when the event is allocated. -/
def Scan.kinds (s : Scan) : List String := s.events.map (fun e => e.Event)

/-- What holds of a reader at every moment, against the kinds `K` in the buffer
and the `done` flag: it has sent one event for each of the first `i` buffer
entries, of that entry's kind, none of them a sentinel; it is in a send only
with a non-sentinel entry at index `i`; and it has closed its channel only at a
sentinel or at the end of a closed buffer. -/
def Reader.Ok (K : List String) (done : Bool) (c : Reader) : Prop :=
  c.sent.length = c.i ∧
  c.sent.map (fun e => e.Event) = K.take c.i ∧
  (∀ k ∈ K.take c.i, k ≠ EventDone) ∧
  c.i ≤ K.length ∧
  ((c.pc = .send ∨ c.pc = .sendLocked) → ∃ k, K[c.i]? = some k ∧ k ≠ EventDone) ∧
  (c.pc = .closed → K[c.i]? = some EventDone ∨ (c.i = K.length ∧ done = true))

/-- What holds of every world reachable from a handle of `Chat`. -/
def World.Ok (w : World) : Prop :=
  w.scan.Valid ∧ (w.done = true → w.pump = .finished) ∧
  ∀ c ∈ w.readers, c.Ok w.scan.kinds w.done

/-- A text without its leading spaces. -/
def dropSpaces (text : String) : String := ⟨text.data.dropWhile (fun c => decide (c = ' '))⟩

/-- The decoder `Json.sample` behind the white-space skipping of `encoding/json`:
spaces in front of the text are ignored. -/
def Json.sampleSpaced : Json where
  kind := fun text => Json.sample.kind (dropSpaces text)
  intoData := fun text d => Json.sample.intoData (dropSpaces text) d
  intoError := fun text e => Json.sample.intoError (dropSpaces text) e

/-! # Theorems -/

/-! ## Result accumulator -/

theorem GetResult_event_delta (st : Acc) (d : ChatEventData) :
    GetResult.event st ⟨MessageDelta, some d⟩ =
      .ok ⟨{ st.result with Answer := st.buff ++ d.Content }, st.buff ++ d.Content⟩ := by
  simp [GetResult.event, show MessageDelta ≠ ChatInProgress by decide,
    show MessageDelta ≠ ChatCompleted by decide]

theorem GetResult_loop_nil (st : Acc) : GetResult.loop st [] = .ok st := rfl

theorem GetResult_loop_cons (st : Acc) (ev : ChatEvent) (evs : List ChatEvent) :
    GetResult.loop st (ev :: evs) =
      match GetResult.event st ev with
      | .ok st1 => GetResult.loop st1 evs
      | .fault => .fault := rfl

theorem GetResult_loop_deltas (st : Acc) (ds : List ChatEventData) (rest : List ChatEvent) :
    GetResult.loop st (ds.map (fun d => ⟨MessageDelta, some d⟩) ++ rest) =
      GetResult.loop (st.afterDeltas ds) rest := by
  induction ds generalizing st with
  | nil => rfl
  | cons d ds ih =>
    simp only [List.map_cons, List.cons_append, GetResult_loop_cons, GetResult_event_delta]
    exact ih _

theorem Acc_afterDeltas_fields (st : Acc) (ds : List ChatEventData) :
    (st.afterDeltas ds).result.ConversationId = st.result.ConversationId ∧
    (st.afterDeltas ds).result.ChatId = st.result.ChatId ∧
    (st.afterDeltas ds).result.FollowUp = st.result.FollowUp ∧
    (st.afterDeltas ds).result.CompletedAt = st.result.CompletedAt ∧
    (st.afterDeltas ds).result.Usage = st.result.Usage ∧
    (st.afterDeltas ds).result.LastError = st.result.LastError := by
  induction ds generalizing st with
  | nil => simp [Acc.afterDeltas]
  | cons d ds ih =>
    have h := ih ⟨{ st.result with Answer := st.buff ++ d.Content }, st.buff ++ d.Content⟩
    simpa [Acc.afterDeltas] using h

/-- C1. Folding `[chat.in_progress(p0), message.delta(d) for d in ds,
message.completed(type answer, content s), chat.completed(pf)]` returns the
result with the conversation and turn ids of `p0`, answer `s`, usage and
completion time of `pf`, no follow-up and no error: the completed text
replaces whatever the deltas accumulated. -/
theorem GetResult_completed_overrides_deltas (p0 pc pf : ChatEventData)
    (ds : List ChatEventData) (s : String) :
    GetResult ([⟨ChatInProgress, some p0⟩] ++ ds.map (fun d => ⟨MessageDelta, some d⟩) ++
        [⟨MessageCompleted, some { pc with Typ := TypeAnswer, Content := s }⟩,
         ⟨ChatCompleted, some pf⟩]) =
      .ok { ConversationId := p0.ConversationId, ChatId := p0.Id, Answer := s,
            FollowUp := [], CompletedAt := pf.CompletedAt, Usage := pf.Usage,
            LastError := none } := by
  have hf := Acc_afterDeltas_fields
    ⟨{ ChatResult.zero with ConversationId := p0.ConversationId, ChatId := p0.Id }, ""⟩ ds
  simp only [GetResult, List.singleton_append, List.cons_append, GetResult_loop_cons,
    GetResult.event, Acc.new, if_true, List.nil_append, List.append_assoc]
  rw [GetResult_loop_deltas]
  generalize Acc.afterDeltas _ ds = A at hf ⊢
  obtain ⟨⟨r1, r2, r3, r4, r5, r6, r7⟩, b⟩ := A
  simp only [ChatResult.zero] at hf
  obtain ⟨h1, h2, h3, h4, h5, h6⟩ := hf
  subst h1 h2 h3 h4 h5 h6
  simp [show MessageCompleted ≠ ChatInProgress by decide,
    show MessageCompleted ≠ ChatCompleted by decide,
    show MessageCompleted ≠ MessageDelta by decide,
    show ChatCompleted ≠ ChatInProgress by decide, GetResult_loop_nil, GetResult_loop_cons,
    GetResult.event]

/-! ## Replay cursor -/

theorem Stream_run_closed (buff : List ChatEvent) (done : Bool) (n i : Nat)
    (sent : List ChatEvent) :
    Stream.run buff done n ⟨.closed, i, sent⟩ = ⟨.closed, i, sent⟩ := by
  induction n with
  | zero => rfl
  | succ n ih => simpa [Stream.run, Stream.step] using ih

theorem Stream_run_succ (buff : List ChatEvent) (done : Bool) (n : Nat) (c : Cursor) :
    Stream.run buff done (n + 1) c = Stream.run buff done n (Stream.step buff done c) := rfl

theorem Stream_getElem_mid (pre suf : List ChatEvent) (e : ChatEvent) :
    (pre ++ e :: suf)[pre.length]? = some e := by
  rw [List.getElem?_append_right (le_refl _)]
  simp

/-- From the loop head at the end of `pre`, on a buffer that is closed or holds a
sentinel further on, the cursor sends the sentinel-free prefix of the rest and
closes its channel. -/
theorem Stream_run_head (done : Bool) (suf pre sent : List ChatEvent) (k : Nat)
    (h : done = true ∨ ∃ e ∈ suf, e.Event = EventDone) :
    Stream.run (pre ++ suf) done (suf.length + 1 + k) ⟨.head, pre.length, sent⟩ =
      ⟨.closed, pre.length + (suf.takeWhile (fun e => decide (e.Event ≠ EventDone))).length,
        sent ++ suf.takeWhile (fun e => decide (e.Event ≠ EventDone))⟩ := by
  induction suf generalizing pre sent with
  | nil =>
    have hd : done = true := by
      rcases h with h | ⟨e, he, _⟩
      · exact h
      · cases he
    subst hd
    have hk : ([] : List ChatEvent).length + 1 + k = k + 1 := by simp; omega
    rw [hk, Stream_run_succ]
    simp [Stream.step, Stream_run_closed]
  | cons e suf ih =>
    have hget := Stream_getElem_mid pre suf e
    have hlen : pre.length < (pre ++ e :: suf).length := by simp
    have hk : (e :: suf).length + 1 + k = (suf.length + 1 + k) + 1 := by simp; omega
    rw [hk, Stream_run_succ]
    by_cases he : e.Event = EventDone
    · simp [Stream.step, hget, he, Stream_run_closed]
    · have h1 : done = true ∨ ∃ x ∈ suf, x.Event = EventDone := by
        rcases h with h | ⟨x, hx, hxe⟩
        · exact Or.inl h
        · rcases List.mem_cons.mp hx with rfl | hx
          · exact absurd hxe he
          · exact Or.inr ⟨x, hx, hxe⟩
      have ih1 := ih (pre ++ [e]) (sent ++ [e]) h1
      simp only [List.append_assoc, List.singleton_append, List.length_append,
        List.length_singleton] at ih1
      have hstep : Stream.step (pre ++ e :: suf) done ⟨.head, pre.length, sent⟩ =
          ⟨.head, pre.length + 1, sent ++ [e]⟩ := by
        simp [Stream.step, hget, he]
      rw [hstep, ih1]
      simp [he, Nat.add_assoc, Nat.add_comm 1]

theorem Stream_run_wait_end (buff : List ChatEvent) (done : Bool) (n : Nat)
    (sent : List ChatEvent) :
    Stream.run buff done n ⟨.wait, buff.length, sent⟩ = ⟨.wait, buff.length, sent⟩ := by
  induction n with
  | zero => rfl
  | succ n ih => simpa [Stream.run, Stream.step] using ih

/-- From the loop head at the end of `pre`, on an open buffer without a sentinel
further on, the cursor sends the rest and parks in its wait. -/
theorem Stream_run_head_open (suf pre sent : List ChatEvent) (k : Nat)
    (h : ∀ e ∈ suf, e.Event ≠ EventDone) :
    Stream.run (pre ++ suf) false (suf.length + 1 + k) ⟨.head, pre.length, sent⟩ =
      ⟨.wait, (pre ++ suf).length, sent ++ suf⟩ := by
  induction suf generalizing pre sent with
  | nil =>
    have hk : ([] : List ChatEvent).length + 1 + k = k + 1 := by simp; omega
    rw [hk, Stream_run_succ]
    have hstep : Stream.step (pre ++ []) false ⟨.head, pre.length, sent⟩ =
        ⟨.wait, (pre ++ []).length, sent⟩ := by
      simp [Stream.step]
    rw [hstep, Stream_run_wait_end]
    simp
  | cons e suf ih =>
    have hget := Stream_getElem_mid pre suf e
    have he : e.Event ≠ EventDone := h e (List.mem_cons_self _ _)
    have hk : (e :: suf).length + 1 + k = (suf.length + 1 + k) + 1 := by simp; omega
    rw [hk, Stream_run_succ]
    have ih1 := ih (pre ++ [e]) (sent ++ [e]) (fun x hx => h x (List.mem_cons_of_mem _ hx))
    simp only [List.append_assoc, List.singleton_append, List.length_append,
      List.length_singleton] at ih1
    have hstep : Stream.step (pre ++ e :: suf) false ⟨.head, pre.length, sent⟩ =
        ⟨.head, pre.length + 1, sent ++ [e]⟩ := by
      simp [Stream.step, hget, he]
    rw [hstep, ih1]
    simp

theorem Stream_step_sent_grows (buff : List ChatEvent) (done : Bool) (c : Cursor) :
    c.sent <+: (Stream.step buff done c).sent := by
  unfold Stream.step
  split
  · split
    · split
      · split
        · exact List.prefix_refl _
        · exact List.prefix_append _ _
      · exact List.prefix_refl _
    · exact List.prefix_refl _
  · split
    · exact List.prefix_refl _
    · split
      · exact List.prefix_refl _
      · exact List.prefix_append _ _
  · exact List.prefix_refl _

theorem Stream_run_add (buff : List ChatEvent) (done : Bool) (n m : Nat) (c : Cursor) :
    Stream.run buff done (n + m) c = Stream.run buff done m (Stream.run buff done n c) := by
  induction n generalizing c with
  | zero => simp [Stream.run]
  | succ n ih =>
    have : n + 1 + m = (n + m) + 1 := by omega
    rw [this, Stream_run_succ, Stream_run_succ, ih]

theorem Stream_run_sent_grows (buff : List ChatEvent) (done : Bool) (n : Nat) (c : Cursor) :
    c.sent <+: (Stream.run buff done n c).sent := by
  induction n generalizing c with
  | zero => exact List.prefix_refl _
  | succ n ih =>
    rw [Stream_run_succ]
    exact (Stream_step_sent_grows buff done c).trans (ih _)

/-- What a cursor has sent once it has taken `len(buff) + 1` steps or more:
the sentinel-free prefix of the buffer, whatever the `done` flag. -/
theorem Stream_run_sent (buff : List ChatEvent) (done : Bool) (k : Nat) :
    (Stream.run buff done (buff.length + 1 + k) Cursor.new).sent =
      buff.takeWhile (fun e => decide (e.Event ≠ EventDone)) := by
  by_cases h : done = true ∨ ∃ e ∈ buff, e.Event = EventDone
  · have := Stream_run_head done buff [] [] k h
    simp only [List.nil_append, List.length_nil] at this
    rw [Cursor.new, this]
  · have hd : done = false := by
      cases done
      · rfl
      · exact absurd (Or.inl rfl) h
    have hs : ∀ e ∈ buff, e.Event ≠ EventDone := fun e he hE => h (Or.inr ⟨e, he, hE⟩)
    have := Stream_run_head_open buff [] [] k hs
    simp only [List.nil_append, List.length_nil] at this
    subst hd
    rw [Cursor.new, this]
    symm
    apply List.takeWhile_eq_self_iff.mpr
    intro e he
    simpa using hs e he

/-- A `Stream()` call made once the pump has ended.  On a handle whose buffer
holds only non-sentinel events and is closed, such a call
driven for `len + 1` steps or more has delivered exactly the
buffered sequence, from index 0 and in append order, and has closed its
channel; so has the call made inside `GetResult`, which therefore folds that
very sequence. -/
theorem Stream_replays_whole_sequence (rsp : ChatRsp) (hd : rsp.done = true)
    (hs : ∀ e ∈ rsp.events, e.Event ≠ EventDone) (k : Nat) :
    Stream.run rsp.events rsp.done (rsp.events.length + 1 + k) Cursor.new =
      ⟨.closed, rsp.events.length, rsp.events⟩ ∧
    rsp.Stream = ⟨.closed, rsp.events.length, rsp.events⟩ ∧
    rsp.GetResult = GetResult rsp.events := by
  have htw : rsp.events.takeWhile (fun e => decide (e.Event ≠ EventDone)) = rsp.events := by
    apply List.takeWhile_eq_self_iff.mpr
    intro e he
    simpa using hs e he
  have hrun : ∀ j, Stream.run rsp.events rsp.done (rsp.events.length + 1 + j) Cursor.new =
      ⟨.closed, rsp.events.length, rsp.events⟩ := by
    intro j
    have := Stream_run_head rsp.done rsp.events [] [] j (Or.inl hd)
    simp only [List.nil_append, List.length_nil, htw, Nat.zero_add] at this
    rw [Cursor.new, this]
  have hS : rsp.Stream = ⟨.closed, rsp.events.length, rsp.events⟩ := by
    have := hrun 0
    simpa [ChatRsp.Stream] using this
  exact ⟨hrun k, hS, by rw [ChatRsp.GetResult, hS]⟩

theorem Stream_replays_whole_sequence_witness :
    (ChatRsp.mk none true
        [⟨ChatInProgress, some ChatEventData.zero⟩, ⟨ChatFailed, some ChatEventData.zero⟩]
        [0, 1]).Stream =
      ⟨.closed, 2, [⟨ChatInProgress, some ChatEventData.zero⟩,
                    ⟨ChatFailed, some ChatEventData.zero⟩]⟩ :=
  (Stream_replays_whole_sequence
    (ChatRsp.mk none true
        [⟨ChatInProgress, some ChatEventData.zero⟩, ⟨ChatFailed, some ChatEventData.zero⟩]
        [0, 1]) rfl (by decide) 0).2.1

/-- A `Stream()` call against a buffer that no longer changes.  For every buffer
content and either value of `done`: at no moment has such a
call sent anything but a prefix of the sentinel-free prefix of the
buffer, so no `done` event and nothing behind the first one; after
`len + 1` steps it has sent exactly that longest prefix without a `done`
event; on a closed buffer it has then closed its channel. -/
theorem Stream_stops_at_first_done (buff : List ChatEvent) (done : Bool) :
    (∀ k, (Stream.run buff done (buff.length + 1 + k) Cursor.new).sent =
        buff.takeWhile (fun e => decide (e.Event ≠ EventDone))) ∧
    (∀ n, (Stream.run buff done n Cursor.new).sent <+:
        buff.takeWhile (fun e => decide (e.Event ≠ EventDone))) ∧
    (∀ n, ∀ e ∈ (Stream.run buff done n Cursor.new).sent, e.Event ≠ EventDone) ∧
    (∀ k, (Stream.run buff true (buff.length + 1 + k) Cursor.new).pc = .closed) ∧
    (∀ rsp : ChatRsp, rsp.Stream.sent =
        rsp.events.takeWhile (fun e => decide (e.Event ≠ EventDone))) := by
  have hpre : ∀ n, (Stream.run buff done n Cursor.new).sent <+:
      buff.takeWhile (fun e => decide (e.Event ≠ EventDone)) := by
    intro n
    have h1 := Stream_run_sent buff done n
    have h2 : buff.length + 1 + n = n + (buff.length + 1) := by omega
    rw [h2, Stream_run_add] at h1
    rw [← h1]
    exact Stream_run_sent_grows _ _ _ _
  refine ⟨Stream_run_sent buff done, hpre, ?_, ?_, ?_⟩
  · intro n e he
    have hmem := (hpre n).subset he
    have := List.mem_takeWhile_imp hmem
    simpa using this
  · intro k
    have := Stream_run_head true buff [] [] k (Or.inl rfl)
    simp only [List.nil_append, List.length_nil] at this
    rw [Cursor.new, this]
  · intro rsp
    have := Stream_run_sent rsp.events rsp.done 0
    simpa [ChatRsp.Stream] using this

/-! ## Bootstrap -/

theorem handleChatSync_loop_nil (J : Json) (s : Scan) :
    handleChatSync.loop J s [] = (s, .eof, []) := rfl

theorem handleChatSync_loop_cons (J : Json) (s : Scan) (row : String) (rows : List String) :
    handleChatSync.loop J s (row :: rows) =
      match handleChatSync.row J s row with
      | (s1, none) => handleChatSync.loop J s1 rows
      | (s1, some x) => (s1, x, rows) := rfl

/-- Once `event` is set, an iteration of the bootstrap loop keeps it set and does
not take the error return. -/
theorem handleChatSync_row_event_set (J : Json) (s : Scan) (row : String)
    (h : s.event.isSome = true) :
    (handleChatSync.row J s row).1.event.isSome = true ∧
      ∀ e, (handleChatSync.row J s row).2 ≠ some (.error e) := by
  obtain ⟨ev, heap, buff⟩ := s
  cases ev with
  | none => simp at h
  | some a =>
    simp only [handleChatSync.row, Option.isNone_some, Bool.false_and, Bool.false_eq_true,
      if_false]
    by_cases h1 : HasPrefix row EventPrefixEvent = true
    · simp [h1]
    · by_cases h2 : HasPrefix row EventPrefixData = true
      · simp only [h1, h2, if_true, if_false]
        cases hh : heap[a]? with
        | none => simp
        | some ev =>
          by_cases h3 : ev.Event = ChatInProgress <;> simp [h3]
      · simp [h1, h2]

theorem handleChatSync_loop_event_set (J : Json) (rows : List String) (s : Scan)
    (h : s.event.isSome = true) : ∀ e, (handleChatSync.loop J s rows).2.1 ≠ .error e := by
  induction rows generalizing s with
  | nil => intro e; simp [handleChatSync_loop_nil]
  | cons row rows ih =>
    intro e
    have hr := handleChatSync_row_event_set J s row h
    rw [handleChatSync_loop_cons]
    rcases hrow : handleChatSync.row J s row with ⟨s1, _ | x⟩
    · rw [hrow] at hr
      exact ih s1 hr.1 e
    · rw [hrow] at hr
      intro hx
      exact hr.2 e (by simpa using hx)

theorem handleChatSync_first_not_event (J : Json) (row : String) (rest : List String)
    (h : HasPrefix row EventPrefixEvent = false) :
    handleChatSync J (row :: rest) =
      (some (UnmarshalError J row ErrorWrap.zero), ⟨ChatRsp.new, rest, true, false, false⟩) := by
  simp [handleChatSync, handleChatSync_loop_cons, handleChatSync.row, h, ChatRsp.new]

theorem handleChatSync_first_event (J : Json) (row : String) (rest : List String)
    (h : HasPrefix row EventPrefixEvent = true) :
    (handleChatSync J (row :: rest)).1 = none := by
  have hrow : handleChatSync.row J ⟨none, [], []⟩ row =
      (⟨some 0, [⟨TrimPrefix row EventPrefixEvent, some ChatEventData.zero⟩], []⟩, none) := by
    simp [handleChatSync.row, h]
  have hne := handleChatSync_loop_event_set J rest
    ⟨some 0, [⟨TrimPrefix row EventPrefixEvent, some ChatEventData.zero⟩], []⟩ rfl
  unfold handleChatSync
  rw [handleChatSync_loop_cons, hrow]
  simp only []
  rcases hl : handleChatSync.loop J
    ⟨some 0, [⟨TrimPrefix row EventPrefixEvent, some ChatEventData.zero⟩], []⟩ rest
    with ⟨s2, x, r2⟩
  rw [hl] at hne
  cases x with
  | eof => rfl
  | brk => rfl
  | fault => rfl
  | error e => exact absurd rfl (hne e)

/-- C3. The bootstrap returns an error exactly when the body has a first line and
that line does not begin with `event:`.  In that case the error is the
`ErrorWrap` decoded from that line, the buffer is still empty, the pump has not
been submitted, the body is closed, and `Chat` returns the error and no handle.
In every other case (first line an `event:` line, or empty body) no error is
returned and `Chat` returns the handle. -/
theorem handleChatSync_fails_iff_first_line_not_event (J : Json) (body : List String) :
    ((handleChatSync J body).1.isSome = true ↔
        ∃ row, body.head? = some row ∧ HasPrefix row EventPrefixEvent = false) ∧
    (∀ row rest, body = row :: rest → HasPrefix row EventPrefixEvent = false →
        handleChatSync J body =
          (some (UnmarshalError J row ErrorWrap.zero),
            ⟨ChatRsp.new, rest, true, false, false⟩) ∧
        Chat J (.stream body) = (none, some (UnmarshalError J row ErrorWrap.zero))) ∧
    ((handleChatSync J body).1 = none →
        Chat J (.stream body) = (some (handleChatSync J body).2, none)) := by
  refine ⟨?_, ?_, ?_⟩
  · cases body with
    | nil => simp [handleChatSync, handleChatSync_loop_nil]
    | cons row rest =>
      cases hp : HasPrefix row EventPrefixEvent with
      | true => simp [handleChatSync_first_event J row rest hp, hp]
      | false => simp [handleChatSync_first_not_event J row rest hp, hp]
  · intro row rest hb hp
    subst hb
    have h := handleChatSync_first_not_event J row rest hp
    exact ⟨h, by simp [Chat, h]⟩
  · intro h
    rcases hh : handleChatSync J body with ⟨e, t⟩
    rw [hh] at h
    simp only at h
    subst h
    simp [Chat, hh]

/-! ## Result accumulator: errors and faults -/

theorem GetResult_loop_append (st : Acc) (xs ys : List ChatEvent) :
    GetResult.loop st (xs ++ ys) =
      match GetResult.loop st xs with
      | .ok st1 => GetResult.loop st1 ys
      | .fault => .fault := by
  induction xs generalizing st with
  | nil => simp [GetResult_loop_nil]
  | cons x xs ih =>
    simp only [List.cons_append, GetResult_loop_cons]
    cases GetResult.event st x with
    | ok st1 => exact ih st1
    | fault => rfl

/-- One received event changes `LastError` only when it is a `chat.failed` event,
and then to that event's `last_error`. -/
theorem GetResult_event_LastError (st st1 : Acc) (ev : ChatEvent)
    (h : GetResult.event st ev = .ok st1) :
    st1.result.LastError =
      if ev.Event = ChatFailed then ev.Data.bind (fun d => d.LastError)
      else st.result.LastError := by
  obtain ⟨k, d⟩ := ev
  unfold GetResult.event at h
  simp only at h
  by_cases h1 : k = ChatInProgress
  · subst h1
    cases d <;> simp at h
    subst h
    simp [show ChatInProgress ≠ ChatFailed by decide]
  by_cases h2 : k = ChatCompleted
  · subst h2
    cases d <;> simp [show ChatCompleted ≠ ChatInProgress by decide] at h
    subst h
    simp [show ChatCompleted ≠ ChatFailed by decide]
  by_cases h3 : k = MessageDelta
  · subst h3
    cases d <;> simp [show MessageDelta ≠ ChatInProgress by decide,
      show MessageDelta ≠ ChatCompleted by decide] at h
    subst h
    simp [show MessageDelta ≠ ChatFailed by decide]
  by_cases h4 : k = MessageCompleted
  · subst h4
    cases d with
    | none =>
      simp [show MessageCompleted ≠ ChatInProgress by decide,
        show MessageCompleted ≠ ChatCompleted by decide,
        show MessageCompleted ≠ MessageDelta by decide] at h
    | some d =>
      simp only [show MessageCompleted ≠ ChatInProgress by decide,
        show MessageCompleted ≠ ChatCompleted by decide,
        show MessageCompleted ≠ MessageDelta by decide, if_false, if_true] at h
      by_cases ha : d.Typ = TypeAnswer
      · simp [ha] at h
        subst h
        simp [show MessageCompleted ≠ ChatFailed by decide]
      · by_cases hb : d.Typ = TypeFollowUp
        · simp [hb, show TypeFollowUp ≠ TypeAnswer by decide] at h
          subst h
          simp [show MessageCompleted ≠ ChatFailed by decide]
        · simp [ha, hb] at h
          subst h
          simp [show MessageCompleted ≠ ChatFailed by decide]
  by_cases h5 : k = ChatFailed
  · subst h5
    cases d <;> simp [show ChatFailed ≠ ChatInProgress by decide,
      show ChatFailed ≠ ChatCompleted by decide, show ChatFailed ≠ MessageDelta by decide,
      show ChatFailed ≠ MessageCompleted by decide] at h
    subst h
    simp
  · simp [h1, h2, h3, h4, h5] at h
    subst h
    simp [h5]

/-- An event is folded without a fault exactly when its payload is there or its
kind is none of the five that `GetResult` reads. -/
theorem GetResult_event_ok_iff (st : Acc) (ev : ChatEvent) :
    (∃ st1, GetResult.event st ev = .ok st1) ↔ (ev.isRead = true → ev.Data.isSome = true) := by
  obtain ⟨k, d⟩ := ev
  cases d with
  | some d =>
    simp only [Option.isSome_some, implies_true, iff_true]
    unfold GetResult.event
    simp only
    split_ifs <;> exact ⟨_, rfl⟩
  | none =>
    unfold GetResult.event ChatEvent.isRead
    simp only
    split_ifs with h1 h2 h3 h4 h5 <;> simp [*]

theorem GetResult_loop_ok_of_payloads (evs : List ChatEvent) (st : Acc)
    (h : ∀ e ∈ evs, e.isRead = true → e.Data.isSome = true) :
    ∃ st1, GetResult.loop st evs = .ok st1 := by
  induction evs generalizing st with
  | nil => exact ⟨st, rfl⟩
  | cons e evs ih =>
    obtain ⟨st1, h1⟩ := (GetResult_event_ok_iff st e).mpr (h e (List.mem_cons_self _ _))
    rw [GetResult_loop_cons, h1]
    exact ih st1 (fun x hx => h x (List.mem_cons_of_mem _ hx))

theorem GetResult_loop_LastError (evs : List ChatEvent) (st st1 : Acc)
    (h : GetResult.loop st evs = .ok st1) :
    st1.result.LastError =
      match (evs.filter (fun e => decide (e.Event = ChatFailed))).getLast? with
      | some e => e.Data.bind (fun d => d.LastError)
      | none => st.result.LastError := by
  induction evs using List.reverseRecOn generalizing st1 with
  | nil =>
    simp [GetResult_loop_nil] at h
    subst h
    simp
  | append_singleton evs e ih =>
    rw [GetResult_loop_append] at h
    cases hl : GetResult.loop st evs with
    | fault => simp [hl] at h
    | ok st2 =>
      simp only [hl, GetResult_loop_cons] at h
      cases he : GetResult.event st2 e with
      | fault => simp [he] at h
      | ok st3 =>
        simp only [he, GetResult_loop_nil] at h
        cases h
        have h3 := GetResult_event_LastError st2 st1 e he
        have h2 := ih st2 hl
        by_cases hf : e.Event = ChatFailed
        · simp [List.filter_append, List.filter_cons, hf, h3]
        · simp [List.filter_append, List.filter_cons, hf, h3, h2]

/-- C4. Whenever `GetResult` returns a result for a delivered sequence, its
`LastError` is the `last_error` field of the last `chat.failed` event of the
sequence, nil when there is none; it does return one when every event it reads
the payload of has a payload; and folding `[chat.in_progress(p0),
chat.failed(pe)]` gives `LastError = pe.last_error` with the ids of `p0`. -/
theorem GetResult_LastError_is_last_failed (evs : List ChatEvent) :
    (∀ r, GetResult evs = .ok r → r.LastError = lastFailedError evs) ∧
    ((∀ e ∈ evs, e.isRead = true → e.Data.isSome = true) → ∃ r, GetResult evs = .ok r) ∧
    (∀ p0 pe : ChatEventData,
      GetResult [⟨ChatInProgress, some p0⟩, ⟨ChatFailed, some pe⟩] =
        .ok { ChatResult.zero with ConversationId := p0.ConversationId, ChatId := p0.Id,
                                   LastError := pe.LastError }) := by
  refine ⟨?_, ?_, ?_⟩
  · intro r h
    unfold GetResult at h
    cases hl : GetResult.loop Acc.new evs with
    | fault => simp [hl] at h
    | ok st1 =>
      simp only [hl, Run.ok.injEq] at h
      subst h
      rw [GetResult_loop_LastError evs Acc.new st1 hl, lastFailedError]
      cases (evs.filter (fun e => decide (e.Event = ChatFailed))).getLast? <;>
        simp [Acc.new, ChatResult.zero]
  · intro h
    obtain ⟨st1, h1⟩ := GetResult_loop_ok_of_payloads evs Acc.new h
    exact ⟨st1.result, by simp [GetResult, h1]⟩
  · intro p0 pe
    simp [GetResult, GetResult_loop_cons, GetResult_loop_nil, GetResult.event, Acc.new,
      show ChatFailed ≠ ChatInProgress by decide,
      show ChatFailed ≠ ChatCompleted by decide, show ChatFailed ≠ MessageDelta by decide,
      show ChatFailed ≠ MessageCompleted by decide]

/-- C5 (the code at the failing inputs). `Chat` returns a handle for a
non-streaming response without data object and for a streamed body whose
`chat.in_progress` frame carries `null`; on either handle `GetResult`
dereferences the nil payload of the delivered `chat.in_progress` event. -/
theorem GetResult_faults_on_absent_payload :
    (Chat Json.sample (.plain ⟨none, none⟩)).1.map
        (fun t => ((t.settle Json.sample).rsp.events, (t.settle Json.sample).rsp.GetResult)) =
      some ([⟨ChatInProgress, none⟩], .fault) ∧
    (Chat Json.sample (.stream ["event:conversation.chat.in_progress", "data:null"])).1.map
        (fun t => ((t.settle Json.sample).rsp.events, (t.settle Json.sample).rsp.GetResult)) =
      some ([⟨ChatInProgress, none⟩], .fault) := by
  decide

/-! ## Frames on the wire -/

/-- C7 (the code at the failing input). A `chat.failed` frame decoded by the
bootstrap does not end the stream: the `message.delta` frame behind it is
appended as well, and a `Stream()` call delivers both. -/
theorem bootstrap_reads_past_chat_failed :
    (Chat Json.sample (.stream ["event:conversation.chat.failed", "data:\x7b\x7d",
        "event:conversation.message.delta", "data:\x7b\x7d"])).1.map
      (fun t => ((t.settle Json.sample).rsp.events.map (fun e => e.Event),
                 (t.settle Json.sample).rsp.Stream.sent.map (fun e => e.Event),
                 (t.settle Json.sample).rsp.Stream.pc)) =
      some ([ChatFailed, MessageDelta], [ChatFailed, MessageDelta], .closed) := by
  decide

theorem HasPrefix_append (pre K : String) : HasPrefix (pre ++ K) pre = true := by
  simp [HasPrefix, String.data_append]

theorem TrimPrefix_append (pre K : String) : TrimPrefix (pre ++ K) pre = K := by
  simp [TrimPrefix, HasPrefix_append, String.data_append]

theorem HasPrefix_data_line (P : String) :
    HasPrefix (EventPrefixData ++ P) EventPrefixEvent = false := by
  have h : EventPrefixData.data = ['d', 'a', 't', 'a', ':'] := by decide
  have h1 : EventPrefixEvent.data = ['e', 'v', 'e', 'n', 't', ':'] := by decide
  simp only [HasPrefix, String.data_append, h, h1, List.cons_append, List.isPrefixOf]
  rfl

theorem prefixed_ne_empty (pre K : String) (h : pre ≠ "") : pre ++ K ≠ "" := by
  intro hK
  apply h
  have := congrArg String.data hK
  simp [String.data_append] at this
  exact String.ext this.1

theorem handleScanEvent_loop_nil (J : Json) (s : Scan) :
    handleScanEvent.loop J s [] = (s, .eof, []) := rfl

theorem handleScanEvent_loop_cons (J : Json) (s : Scan) (row : String) (rows : List String) :
    handleScanEvent.loop J s (row :: rows) =
      match handleScanEvent.row J s row with
      | (s1, none) => handleScanEvent.loop J s1 rows
      | (s1, some x) => (s1, x, rows) := rfl

/-- The pump on an `event:` line: a fresh event of the kind that follows the
prefix, without payload, becomes the pending one. -/
theorem handleScanEvent_row_event (J : Json) (s : Scan) (K : String) :
    handleScanEvent.row J s (EventPrefixEvent ++ K) =
      ({ s with event := some s.heap.length, heap := s.heap ++ [⟨K, none⟩] }, none) := by
  have hne : EventPrefixEvent ++ K ≠ "" := prefixed_ne_empty _ _ (by decide)
  simp [handleScanEvent.row, hne, HasPrefix_append, TrimPrefix_append]

/-- The bootstrap on an `event:` line. -/
theorem handleChatSync_row_event (J : Json) (s : Scan) (K : String) :
    handleChatSync.row J s (EventPrefixEvent ++ K) =
      ({ s with event := some s.heap.length,
                heap := s.heap ++ [⟨K, some ChatEventData.zero⟩] }, none) := by
  simp [handleChatSync.row, HasPrefix_append, TrimPrefix_append]

/-- C8 (as stated, refuted). With a space after the prefix the kind keeps the
space: `event: done` is decoded as kind ` done`, which is not the sentinel, so
the pump goes on and appends the frame behind it; and
`event: conversation.chat.in_progress` does not end the bootstrap, which reads
the body to its end. -/
theorem spaced_event_line_keeps_the_space :
    TrimPrefix "event: done" EventPrefixEvent = " done" ∧
    TrimPrefix "event: done" EventPrefixEvent ≠ EventDone ∧
    (handleScanEvent Json.sample (Turn.handoff ChatRsp.new
        ["event: done", "data:\x7b\x7d", "event:conversation.message.delta",
         "data:\x7b\x7d"])).rsp.events.map (fun e => e.Event) = [" done", MessageDelta] ∧
    ((handleChatSync Json.sample
        ["event: conversation.chat.in_progress", "data:\x7b\x7d",
         "event:conversation.message.delta", "data:\x7b\x7d"]).2.rsp.events.map
          (fun e => e.Event),
     (handleChatSync Json.sample
        ["event: conversation.chat.in_progress", "data:\x7b\x7d",
         "event:conversation.message.delta", "data:\x7b\x7d"]).2.rows) =
      ([" conversation.chat.in_progress", MessageDelta], []) := by
  decide

/-- Lines without a space.  For every kind `K` and payload text `P`, the lines `event:K`
and `data:P`, the prefix directly followed by the text, are decoded as a frame
of kind exactly `K` whose payload is decoded from exactly `P`, by the pump and
by the bootstrap.  In particular `event:done` is the sentinel (the pump appends
it without payload and stops), `event:conversation.chat.failed` ends the pump
and `event:conversation.chat.in_progress` ends the bootstrap, the lines behind
the frame being left unread. -/
theorem unspaced_lines_decode_exactly (J : Json) (K P : String) (rest : List String) :
    TrimPrefix (EventPrefixEvent ++ K) EventPrefixEvent = K ∧
    TrimPrefix (EventPrefixData ++ P) EventPrefixData = P ∧
    handleScanEvent.loop J ⟨none, [], []⟩
        ((EventPrefixEvent ++ K) :: (EventPrefixData ++ P) :: rest) =
      (if K = EventDone then (⟨some 0, [⟨K, none⟩], [0]⟩, .brk, rest)
       else if K = ChatFailed then
         (⟨some 0, [⟨K, some (UnmarshalData J P ChatEventData.zero)⟩], [0]⟩, .brk, rest)
       else handleScanEvent.loop J
         ⟨some 0, [⟨K, some (UnmarshalData J P ChatEventData.zero)⟩], [0]⟩ rest) ∧
    handleChatSync.loop J ⟨none, [], []⟩
        ((EventPrefixEvent ++ K) :: (EventPrefixData ++ P) :: rest) =
      (if K = ChatInProgress then
         (⟨some 0, [⟨K, UnmarshalDataPtr J P (some ChatEventData.zero)⟩], [0]⟩, .brk, rest)
       else handleChatSync.loop J
         ⟨some 0, [⟨K, UnmarshalDataPtr J P (some ChatEventData.zero)⟩], [0]⟩ rest) ∧
    handleScanEvent.loop J ⟨none, [], []⟩ ("event:done" :: (EventPrefixData ++ P) :: rest) =
      (⟨some 0, [⟨EventDone, none⟩], [0]⟩, .brk, rest) ∧
    handleScanEvent.loop J ⟨none, [], []⟩
        ("event:conversation.chat.failed" :: (EventPrefixData ++ P) :: rest) =
      (⟨some 0, [⟨ChatFailed, some (UnmarshalData J P ChatEventData.zero)⟩], [0]⟩, .brk, rest) ∧
    handleChatSync.loop J ⟨none, [], []⟩
        ("event:conversation.chat.in_progress" :: (EventPrefixData ++ P) :: rest) =
      (⟨some 0, [⟨ChatInProgress, UnmarshalDataPtr J P (some ChatEventData.zero)⟩], [0]⟩,
        .brk, rest) := by
  have hD : EventPrefixData ++ P ≠ "" := prefixed_ne_empty _ _ (by decide)
  have hDE := HasPrefix_data_line P
  have hDD := HasPrefix_append EventPrefixData P
  have hT := TrimPrefix_append EventPrefixData P
  have hpump : ∀ K : String,
      handleScanEvent.loop J ⟨none, [], []⟩
          ((EventPrefixEvent ++ K) :: (EventPrefixData ++ P) :: rest) =
        (if K = EventDone then (⟨some 0, [⟨K, none⟩], [0]⟩, .brk, rest)
         else if K = ChatFailed then
           (⟨some 0, [⟨K, some (UnmarshalData J P ChatEventData.zero)⟩], [0]⟩, .brk, rest)
         else handleScanEvent.loop J
           ⟨some 0, [⟨K, some (UnmarshalData J P ChatEventData.zero)⟩], [0]⟩ rest) := by
    intro K
    rw [handleScanEvent_loop_cons, handleScanEvent_row_event]
    simp only [List.length_nil, List.nil_append]
    rw [handleScanEvent_loop_cons]
    by_cases h1 : K = EventDone
    · simp [handleScanEvent.row, hD, hDE, hDD, hT, h1]
    · by_cases h2 : K = ChatFailed
      · simp [handleScanEvent.row, hD, hDE, hDD, hT, h1, h2,
          show ChatFailed ≠ EventDone by decide]
      · simp [handleScanEvent.row, hD, hDE, hDD, hT, h1, h2]
  have hsync : ∀ K : String,
      handleChatSync.loop J ⟨none, [], []⟩
          ((EventPrefixEvent ++ K) :: (EventPrefixData ++ P) :: rest) =
        (if K = ChatInProgress then
           (⟨some 0, [⟨K, UnmarshalDataPtr J P (some ChatEventData.zero)⟩], [0]⟩, .brk, rest)
         else handleChatSync.loop J
           ⟨some 0, [⟨K, UnmarshalDataPtr J P (some ChatEventData.zero)⟩], [0]⟩ rest) := by
    intro K
    rw [handleChatSync_loop_cons, handleChatSync_row_event]
    simp only [List.length_nil, List.nil_append]
    rw [handleChatSync_loop_cons]
    by_cases h1 : K = ChatInProgress
    · simp [handleChatSync.row, hDE, hDD, hT, h1]
    · simp [handleChatSync.row, hDE, hDD, hT, h1]
  refine ⟨TrimPrefix_append _ _, hT, hpump K, hsync K, ?_, ?_, ?_⟩
  · have h := hpump EventDone
    rw [if_pos rfl] at h
    exact h
  · have h := hpump ChatFailed
    rw [if_neg (by decide), if_pos rfl] at h
    exact h
  · have h := hsync ChatInProgress
    rw [if_pos rfl] at h
    exact h

/-- C9 (the code at the failing input). When the line behind the
`chat.in_progress` frame is a second `data:` line, the pump dereferences its
nil `event`: the goroutine ends in the fault, `done` is never set and the body
is never closed. -/
theorem pump_faults_on_data_before_event :
    (Chat Json.sample (.stream ["event:conversation.chat.in_progress", "data:\x7b\x7d",
        "data:\x7b\x7d"])).1.map
      (fun t => ((t.settle Json.sample).fault, (t.settle Json.sample).rsp.done,
                 (t.settle Json.sample).bodyClosed)) =
      some (true, false, false) := by
  decide

/-- C10 (the code at the failing input). A second `data:` line behind one
`event:` line appends the same event object again and rewrites its payload, so
the event already at index 0 changes: the buffer after two lines is not a
prefix of the buffer after three, in the pump and in the bootstrap. -/
theorem second_data_line_rewrites_appended_event :
    (handleScanEvent.loop Json.sample ⟨none, [], []⟩
        ["event:conversation.chat.created", "data:\x7b\"id\":\"1\"\x7d"]).1.events =
      [⟨"conversation.chat.created", some { ChatEventData.zero with Id := "1" }⟩] ∧
    (handleScanEvent.loop Json.sample ⟨none, [], []⟩
        ["event:conversation.chat.created", "data:\x7b\"id\":\"1\"\x7d",
         "data:\x7b\"id\":\"2\"\x7d"]).1.events =
      [⟨"conversation.chat.created", some { ChatEventData.zero with Id := "2" }⟩,
       ⟨"conversation.chat.created", some { ChatEventData.zero with Id := "2" }⟩] ∧
    (handleChatSync.loop Json.sample ⟨none, [], []⟩
        ["event:conversation.chat.created", "data:\x7b\"id\":\"1\"\x7d"]).1.events =
      [⟨"conversation.chat.created", some { ChatEventData.zero with Id := "1" }⟩] ∧
    (handleChatSync.loop Json.sample ⟨none, [], []⟩
        ["event:conversation.chat.created", "data:\x7b\"id\":\"1\"\x7d",
         "data:\x7b\"id\":\"2\"\x7d"]).1.events =
      [⟨"conversation.chat.created", some { ChatEventData.zero with Id := "2" }⟩,
       ⟨"conversation.chat.created", some { ChatEventData.zero with Id := "2" }⟩] ∧
    ¬ ((handleScanEvent.loop Json.sample ⟨none, [], []⟩
          ["event:conversation.chat.created", "data:\x7b\"id\":\"1\"\x7d"]).1.events <+:
       (handleScanEvent.loop Json.sample ⟨none, [], []⟩
          ["event:conversation.chat.created", "data:\x7b\"id\":\"1\"\x7d",
           "data:\x7b\"id\":\"2\"\x7d"]).1.events) ∧
    ¬ ((handleChatSync.loop Json.sample ⟨none, [], []⟩
          ["event:conversation.chat.created", "data:\x7b\"id\":\"1\"\x7d"]).1.events <+:
       (handleChatSync.loop Json.sample ⟨none, [], []⟩
          ["event:conversation.chat.created", "data:\x7b\"id\":\"1\"\x7d",
           "data:\x7b\"id\":\"2\"\x7d"]).1.events) := by
  decide

/-! ## Pump and cursors interleaved -/

/-- C11 (the code at the failing input). A cursor that entered `cond.Wait` at
the end of the log before the pump ended stays there: the pump sets `done`
without a broadcast and the wait loop looks at `len(buff)` only.  Shown for a
body that ends after the `chat.in_progress` frame and for one that ends with a
`chat.failed` frame: the reached state has `done` set, the pump returned, the
cursor in `wait` at index `len(buff)`, and no step enabled.  On the first body
with the pump scheduled first, the cursor arrives at the end after the close
and does close its channel. -/
theorem cursor_hangs_when_pump_ends_without_done :
    ((Chat Json.sample (.stream ["event:conversation.chat.in_progress", "data:\x7b\x7d"])).1.bind
        (fun t => World.run Json.sample (World.start t 1)
          [.reader 0, .reader 0, .reader 0, .reader 0, .pump, .pump])).map
      (World.view Json.sample) =
      some ⟨true, .finished, none, [], [(.wait, 1, true)], [ChatInProgress], true⟩ ∧
    ((Chat Json.sample (.stream ["event:conversation.chat.in_progress", "data:\x7b\x7d",
          "event:conversation.chat.failed", "data:\x7b\x7d"])).1.bind
        (fun t => World.run Json.sample (World.start t 1)
          [.reader 0, .reader 0, .reader 0, .reader 0, .pump, .pump,
           .reader 0, .reader 0, .reader 0, .reader 0, .pump])).map
      (World.view Json.sample) =
      some ⟨true, .finished, none, [], [(.wait, 2, true)], [ChatInProgress, ChatFailed],
            true⟩ ∧
    ((Chat Json.sample (.stream ["event:conversation.chat.in_progress", "data:\x7b\x7d"])).1.bind
        (fun t => World.run Json.sample (World.start t 1)
          [.pump, .pump, .reader 0, .reader 0, .reader 0])).map
      (World.view Json.sample) =
      some ⟨true, .finished, none, [], [(.closed, 1, true)], [ChatInProgress], true⟩ := by
  decide

/-- C18 (the code at the failing input). Reader 0 is in `cond.Wait` when its
`GetResult` returns on cancellation; the pump appends the next event; reader 0
wakes, takes the lock and blocks in `evch <- rsp.buff[i]` with the lock held.
From then on the pump cannot append the `done` frame it has read, `done` is never
set, and reader 1 blocks at `Lock` without reaching end-of-stream: no step is
enabled. -/
theorem cancelled_reader_blocks_pump_and_readers :
    ((Chat Json.sample (.stream ["event:conversation.chat.in_progress", "data:\x7b\x7d",
          "event:conversation.message.delta", "data:\x7b\x7d",
          "event:done", "data:\x7b\x7d"])).1.bind
        (fun t => World.run Json.sample (World.start t 2)
          [.reader 0, .reader 0, .reader 0, .reader 0, .cancel 0, .pump, .pump, .reader 0,
           .pump, .reader 1, .reader 1, .reader 1, .reader 1, .reader 1])).map
      (World.view Json.sample) =
      some ⟨false, .reading, some 0, ["data:\x7b\x7d"],
            [(.sendLocked, 1, false), (.lock, 2, true)],
            [ChatInProgress, MessageDelta], true⟩ := by
  decide

/-! ## Result accumulator: which events count -/

/-- C12 (as stated, refuted). A `message.delta` event of type `function_call`
with content `x`, folded into the empty result, sets `Answer` to `x`. -/
theorem delta_of_other_type_is_appended :
    GetResult.event Acc.new
        ⟨MessageDelta, some { ChatEventData.zero with Typ := "function_call", Content := "x" }⟩ =
      .ok ⟨{ ChatResult.zero with Answer := "x" }, "x"⟩ ∧
    "function_call" ≠ TypeAnswer ∧
    GetResult [⟨MessageDelta,
        some { ChatEventData.zero with Typ := "function_call", Content := "x" }⟩] =
      .ok { ChatResult.zero with Answer := "x" } := by
  decide

/-- C12 (amended). The fold appends the content of every `message.delta` event,
whatever its type: folding one with payload `d` sets `Answer` to the text
accumulated from the deltas so far followed by `d.content`, and leaves every
other field of the result unchanged. -/
theorem delta_is_appended_whatever_its_type (st : Acc) (d : ChatEventData) :
    ∃ st1, GetResult.event st ⟨MessageDelta, some d⟩ = .ok st1 ∧
      st1.buff = st.buff ++ d.Content ∧
      st1.result.Answer = st.buff ++ d.Content ∧
      st1.result.ConversationId = st.result.ConversationId ∧
      st1.result.ChatId = st.result.ChatId ∧
      st1.result.FollowUp = st.result.FollowUp ∧
      st1.result.CompletedAt = st.result.CompletedAt ∧
      st1.result.Usage = st.result.Usage ∧
      st1.result.LastError = st.result.LastError :=
  ⟨_, GetResult_event_delta st d, rfl, rfl, rfl, rfl, rfl, rfl, rfl, rfl⟩

theorem GetResult_event_skipped (st : Acc) (ev : ChatEvent) (h : ev.isSkipped = true) :
    GetResult.event st ev = .ok st := by
  obtain ⟨k, d⟩ := ev
  simp only [ChatEvent.isSkipped, ChatEvent.isRead, Bool.or_eq_true, Bool.not_eq_true',
    Bool.or_eq_false_iff, decide_eq_false_iff_not, Bool.and_eq_true, decide_eq_true_eq] at h
  rcases h with h | ⟨hk, hd⟩
  · obtain ⟨⟨⟨⟨h1, h2⟩, h3⟩, h4⟩, h5⟩ := h
    simp [GetResult.event, h1, h2, h3, h4, h5]
  · subst hk
    cases d with
    | none => simp at hd
    | some d =>
      simp only [decide_not, Bool.and_eq_true, Bool.not_eq_true', decide_eq_false_iff_not] at hd
      simp [GetResult.event, show MessageCompleted ≠ ChatInProgress by decide,
        show MessageCompleted ≠ ChatCompleted by decide,
        show MessageCompleted ≠ MessageDelta by decide, hd.1, hd.2]

theorem GetResult_loop_skipped (evs : List ChatEvent) (st : Acc) :
    GetResult.loop st (evs.filter (fun e => !e.isSkipped)) = GetResult.loop st evs := by
  induction evs generalizing st with
  | nil => rfl
  | cons e evs ih =>
    by_cases h : e.isSkipped = true
    · simp only [List.filter_cons, h, Bool.not_true, Bool.false_eq_true, if_false,
        GetResult_loop_cons, GetResult_event_skipped st e h]
      exact ih st
    · have h1 : e.isSkipped = false := by simpa using h
      simp only [List.filter_cons, h1, Bool.not_false, if_true, GetResult_loop_cons]
      cases GetResult.event st e with
      | ok st1 => exact ih st1
      | fault => rfl

/-- C13. Folding an event whose kind is none of the five of the `switch`, or a
`message.completed` event whose type is neither `answer` nor `follow_up`, leaves
the accumulator, hence every field of the result, as it was; and `GetResult`
gives the same outcome on a sequence and on that sequence without such events. -/
theorem GetResult_ignores_skipped_events :
    (∀ (st : Acc) (ev : ChatEvent), ev.isSkipped = true → GetResult.event st ev = .ok st) ∧
    (∀ evs : List ChatEvent,
      GetResult (evs.filter (fun e => !e.isSkipped)) = GetResult evs) := by
  refine ⟨GetResult_event_skipped, ?_⟩
  intro evs
  simp only [GetResult, GetResult_loop_skipped]

/-! ## Blank lines -/

theorem isBlank_no_prefixes (row : String) (h : isBlank row = true) :
    HasPrefix row EventPrefixEvent = false ∧ HasPrefix row EventPrefixData = false := by
  have h1 : EventPrefixEvent.data = ['e', 'v', 'e', 'n', 't', ':'] := by decide
  have h2 : EventPrefixData.data = ['d', 'a', 't', 'a', ':'] := by decide
  unfold HasPrefix
  rw [h1, h2]
  unfold isBlank at h
  cases hd : row.data with
  | nil => exact ⟨rfl, rfl⟩
  | cons c cs =>
    rw [hd] at h
    simp only [List.all_cons, Bool.and_eq_true] at h
    have he : ('e' == c) = false := by
      apply beq_false_of_ne
      rintro rfl
      exact absurd h.1 (by decide)
    have hdd : ('d' == c) = false := by
      apply beq_false_of_ne
      rintro rfl
      exact absurd h.1 (by decide)
    simp [List.isPrefixOf, he, hdd]

theorem handleChatSync_row_blank (J : Json) (s : Scan) (row : String)
    (hs : s.event.isSome = true) (h : isBlank row = true) :
    handleChatSync.row J s row = (s, none) := by
  obtain ⟨h1, h2⟩ := isBlank_no_prefixes row h
  obtain ⟨ev, heap, buff⟩ := s
  cases ev with
  | none => simp at hs
  | some a => simp [handleChatSync.row, h1, h2]

theorem handleScanEvent_row_blank (J : Json) (s : Scan) (row : String)
    (h : isBlank row = true) : handleScanEvent.row J s row = (s, none) := by
  obtain ⟨h1, h2⟩ := isBlank_no_prefixes row h
  by_cases he : row = ""
  · simp [handleScanEvent.row, he]
  · simp [handleScanEvent.row, he, h1, h2]

/-- The bootstrap loop does on the non-blank lines what it does on all lines, and
leaves unread the non-blank ones among those it leaves unread. -/
theorem handleChatSync_loop_filter (J : Json) (rows : List String) (s : Scan)
    (hs : s.event.isSome = true) :
    handleChatSync.loop J s (rows.filter (fun r => !isBlank r)) =
      ((handleChatSync.loop J s rows).1, (handleChatSync.loop J s rows).2.1,
        (handleChatSync.loop J s rows).2.2.filter (fun r => !isBlank r)) := by
  induction rows generalizing s with
  | nil => rfl
  | cons row rows ih =>
    by_cases hb : isBlank row = true
    · simp only [List.filter_cons, hb, Bool.not_true, Bool.false_eq_true, if_false,
        handleChatSync_loop_cons, handleChatSync_row_blank J s row hs hb]
      exact ih s hs
    · have hb1 : isBlank row = false := by simpa using hb
      simp only [List.filter_cons, hb1, Bool.not_false, if_true, handleChatSync_loop_cons]
      have hr := handleChatSync_row_event_set J s row hs
      rcases hrow : handleChatSync.row J s row with ⟨s1, _ | x⟩
      · rw [hrow] at hr
        exact ih s1 hr.1
      · rfl

theorem handleScanEvent_loop_filter (J : Json) (rows : List String) (s : Scan) :
    handleScanEvent.loop J s (rows.filter (fun r => !isBlank r)) =
      ((handleScanEvent.loop J s rows).1, (handleScanEvent.loop J s rows).2.1,
        (handleScanEvent.loop J s rows).2.2.filter (fun r => !isBlank r)) := by
  induction rows generalizing s with
  | nil => rfl
  | cons row rows ih =>
    by_cases hb : isBlank row = true
    · simp only [List.filter_cons, hb, Bool.not_true, Bool.false_eq_true, if_false,
        handleScanEvent_loop_cons, handleScanEvent_row_blank J s row hb]
      exact ih s
    · have hb1 : isBlank row = false := by simpa using hb
      simp only [List.filter_cons, hb1, Bool.not_false, if_true, handleScanEvent_loop_cons]
      rcases hrow : handleScanEvent.row J s row with ⟨s1, _ | x⟩
      · exact ih s1
      · rfl

theorem handleScanEvent_filter (J : Json) (t : Turn) :
    handleScanEvent J { t with rows := t.rows.filter (fun r => !isBlank r) } =
      { handleScanEvent J t with
        rows := (handleScanEvent J t).rows.filter (fun r => !isBlank r) } := by
  unfold handleScanEvent
  simp only [handleScanEvent_loop_filter]
  rcases handleScanEvent.loop J ⟨none, t.rsp.heap, t.rsp.buff⟩ t.rows with ⟨s, x, r⟩
  cases x <;> rfl

theorem Turn_settle_filter (J : Json) (t : Turn) :
    Turn.settle J { t with rows := t.rows.filter (fun r => !isBlank r) } =
      { t.settle J with rows := (t.settle J).rows.filter (fun r => !isBlank r) } := by
  obtain ⟨rsp, rows, bc, pump, fault⟩ := t
  cases pump with
  | false => simp [Turn.settle]
  | true => simpa [Turn.settle] using handleScanEvent_filter J ⟨rsp, rows, bc, true, fault⟩

theorem Chat_stream_filter (J : Json) (first : String) (rows : List String)
    (hfirst : HasPrefix first EventPrefixEvent = true) :
    ∃ t, Chat J (.stream (first :: rows)) = (some t, none) ∧
      Chat J (.stream (first :: rows.filter (fun r => !isBlank r))) =
        (some { t with rows := t.rows.filter (fun r => !isBlank r) }, none) := by
  have hrow : handleChatSync.row J ⟨none, [], []⟩ first =
      (⟨some 0, [⟨TrimPrefix first EventPrefixEvent, some ChatEventData.zero⟩], []⟩, none) := by
    simp [handleChatSync.row, hfirst]
  have hne := handleChatSync_loop_event_set J rows
    ⟨some 0, [⟨TrimPrefix first EventPrefixEvent, some ChatEventData.zero⟩], []⟩ rfl
  have hf := handleChatSync_loop_filter J rows
    ⟨some 0, [⟨TrimPrefix first EventPrefixEvent, some ChatEventData.zero⟩], []⟩ rfl
  rcases hl : handleChatSync.loop J
    ⟨some 0, [⟨TrimPrefix first EventPrefixEvent, some ChatEventData.zero⟩], []⟩ rows
    with ⟨s2, x, r2⟩
  rw [hl] at hne hf
  simp only [Chat, handleChatSync, handleChatSync_loop_cons, hrow, hf, hl]
  cases x with
  | eof => exact ⟨_, rfl, rfl⟩
  | brk => exact ⟨_, rfl, rfl⟩
  | fault => exact ⟨_, rfl, rfl⟩
  | error e => exact absurd rfl (hne e)

/-- The handle, the fault flag and the body flag that a streamed body ends in. -/
theorem Chat_stream_outcome_filter (J : Json) (first : String) (rows : List String)
    (hfirst : HasPrefix first EventPrefixEvent = true) :
    (Chat J (.stream (first :: rows.filter (fun r => !isBlank r)))).1.map
        (fun t => ((t.settle J).rsp, (t.settle J).fault, (t.settle J).bodyClosed)) =
      (Chat J (.stream (first :: rows))).1.map
        (fun t => ((t.settle J).rsp, (t.settle J).fault, (t.settle J).bodyClosed)) := by
  obtain ⟨t, h1, h2⟩ := Chat_stream_filter J first rows hfirst
  rw [h1, h2]
  simp only [Option.map_some', Turn_settle_filter]

/-- C14. Two bodies with the same first line, an `event:` line, whose further
lines differ only by empty or white-space-only lines end in the same handle
(buffer, heap, `Return`, `done`), the same fault and body flags, and no error:
such lines may be inserted or removed anywhere after the first line. -/
theorem blank_lines_change_nothing (J : Json) (first : String) (rest rest1 : List String)
    (hfirst : HasPrefix first EventPrefixEvent = true)
    (h : rest.filter (fun r => !isBlank r) = rest1.filter (fun r => !isBlank r)) :
    (Chat J (.stream (first :: rest))).2 = none ∧
    (Chat J (.stream (first :: rest1))).2 = none ∧
    (Chat J (.stream (first :: rest))).1.map
        (fun t => ((t.settle J).rsp, (t.settle J).fault, (t.settle J).bodyClosed)) =
      (Chat J (.stream (first :: rest1))).1.map
        (fun t => ((t.settle J).rsp, (t.settle J).fault, (t.settle J).bodyClosed)) ∧
    ((Chat J (.stream (first :: rest))).1.map (fun t => (t.settle J).rsp.events) =
      (Chat J (.stream (first :: rest1))).1.map (fun t => (t.settle J).rsp.events)) := by
  have e1 := Chat_stream_outcome_filter J first rest hfirst
  have e2 := Chat_stream_outcome_filter J first rest1 hfirst
  rw [h] at e1
  have e3 := e1.symm.trans e2
  obtain ⟨t, ht, _⟩ := Chat_stream_filter J first rest hfirst
  obtain ⟨t1, ht1, _⟩ := Chat_stream_filter J first rest1 hfirst
  refine ⟨by rw [ht], by rw [ht1], e3, ?_⟩
  rw [ht, ht1] at e3 ⊢
  simp only [Option.map_some', Option.some.injEq, Prod.mk.injEq] at e3 ⊢
  rw [e3.1]

theorem blank_lines_change_nothing_witness :
    (Chat Json.sample (.stream ["event:conversation.chat.in_progress", "", "data:\x7b\x7d",
        "  ", "event:done", "", "data:\x7b\x7d"])).1.map
        (fun t => (t.settle Json.sample).rsp.events) =
      (Chat Json.sample (.stream ["event:conversation.chat.in_progress", "data:\x7b\x7d",
        "event:done", "\t", "data:\x7b\x7d", ""])).1.map
        (fun t => (t.settle Json.sample).rsp.events) :=
  (blank_lines_change_nothing Json.sample "event:conversation.chat.in_progress"
    ["", "data:\x7b\x7d", "  ", "event:done", "", "data:\x7b\x7d"]
    ["data:\x7b\x7d", "event:done", "\t", "data:\x7b\x7d", ""]
    (by decide) (by decide)).2.2.2

/-! ## Bootstrap on a well-formed body -/

theorem set_concat_length (l : List ChatEvent) (a b : ChatEvent) :
    (l ++ [a]).set l.length b = l ++ [b] := by
  induction l with
  | nil => rfl
  | cons x l ih => simp [ih]

theorem filterMap_range_tail (A B : List ChatEvent) :
    (List.range' A.length B.length).filterMap (fun a => (A ++ B)[a]?) = B := by
  induction B generalizing A with
  | nil => simp
  | cons b B ih =>
    have h := ih (A ++ [b])
    simp only [List.length_append, List.length_singleton, List.append_assoc,
      List.singleton_append] at h
    simp only [List.length_cons, List.range'_succ, List.filterMap_cons,
      Stream_getElem_mid A B b]
    rw [h]

/-- The bootstrap on one frame of a kind other than `chat.in_progress`: a new event
object is allocated, decoded into and appended, and the loop goes on. -/
theorem handleChatSync_loop_frame (J : Json) (s : Scan) (K P : String) (tail : List String)
    (hK : K ≠ ChatInProgress) :
    handleChatSync.loop J s ((EventPrefixEvent ++ K) :: (EventPrefixData ++ P) :: tail) =
      handleChatSync.loop J
        ⟨some s.heap.length, s.heap ++ [bootEvent J (K, P)], s.buff ++ [s.heap.length]⟩ tail := by
  rw [handleChatSync_loop_cons, handleChatSync_row_event]
  simp only []
  rw [handleChatSync_loop_cons]
  simp [handleChatSync.row, HasPrefix_data_line, HasPrefix_append, TrimPrefix_append, hK,
    set_concat_length, bootEvent]

/-- The bootstrap on a `chat.in_progress` frame: the event is appended and the
loop is left, the lines behind the frame unread. -/
theorem handleChatSync_loop_in_progress (J : Json) (s : Scan) (P : String)
    (tail : List String) :
    handleChatSync.loop J s
        ((EventPrefixEvent ++ ChatInProgress) :: (EventPrefixData ++ P) :: tail) =
      (⟨some s.heap.length, s.heap ++ [bootEvent J (ChatInProgress, P)],
        s.buff ++ [s.heap.length]⟩, .brk, tail) := by
  rw [handleChatSync_loop_cons, handleChatSync_row_event]
  simp only []
  rw [handleChatSync_loop_cons]
  simp [handleChatSync.row, HasPrefix_data_line, HasPrefix_append, TrimPrefix_append,
    set_concat_length, bootEvent]

theorem handleChatSync_loop_wire (J : Json) (pre : List (String × String)) (s : Scan)
    (tail : List String) (hpre : ∀ f ∈ pre, f.1 ≠ ChatInProgress) :
    ∃ ev, handleChatSync.loop J s (wire pre ++ tail) =
      handleChatSync.loop J
        ⟨ev, s.heap ++ pre.map (bootEvent J), s.buff ++ List.range' s.heap.length pre.length⟩
        tail := by
  induction pre generalizing s with
  | nil => exact ⟨s.event, by simp [wire]⟩
  | cons f pre ih =>
    obtain ⟨K, P⟩ := f
    have hK : K ≠ ChatInProgress := hpre (K, P) (List.mem_cons_self _ _)
    obtain ⟨ev, h⟩ := ih
      ⟨some s.heap.length, s.heap ++ [bootEvent J (K, P)], s.buff ++ [s.heap.length]⟩
      (fun f hf => hpre f (List.mem_cons_of_mem _ hf))
    refine ⟨ev, ?_⟩
    simp only [wire, List.cons_append]
    rw [handleChatSync_loop_frame J s K P _ hK, h]
    simp [List.range'_succ]

/-- C15. On a body made of well-formed frames of kinds other than
`chat.in_progress`, then a `chat.in_progress` frame, then any further lines,
`handleChatSync` returns no error with the buffer holding exactly the frames up
to and including that `chat.in_progress` frame, in wire order, `Return.Data` its
payload, the pump submitted, `done` unset, and exactly the lines behind that
frame left unread. -/
theorem bootstrap_stops_at_first_in_progress (J : Json) (pre : List (String × String))
    (P : String) (rest : List String) (hpre : ∀ f ∈ pre, f.1 ≠ ChatInProgress) :
    handleChatSync J (wire pre ++
        (EventPrefixEvent ++ ChatInProgress) :: (EventPrefixData ++ P) :: rest) =
      (none, ⟨⟨some ⟨none, UnmarshalDataPtr J P (some ChatEventData.zero)⟩, false,
               pre.map (bootEvent J) ++ [bootEvent J (ChatInProgress, P)],
               List.range (pre.length + 1)⟩, rest, false, true, false⟩) ∧
    (handleChatSync J (wire pre ++
        (EventPrefixEvent ++ ChatInProgress) :: (EventPrefixData ++ P) :: rest)).2.rsp.events =
      pre.map (bootEvent J) ++ [bootEvent J (ChatInProgress, P)] := by
  obtain ⟨ev, h⟩ := handleChatSync_loop_wire J pre ⟨none, [], []⟩
    ((EventPrefixEvent ++ ChatInProgress) :: (EventPrefixData ++ P) :: rest) hpre
  rw [handleChatSync_loop_in_progress] at h
  simp only [List.nil_append, List.length_nil, List.length_append, List.length_map] at h
  have hH : handleChatSync J (wire pre ++
        (EventPrefixEvent ++ ChatInProgress) :: (EventPrefixData ++ P) :: rest) =
      (none, ⟨⟨some ⟨none, UnmarshalDataPtr J P (some ChatEventData.zero)⟩, false,
               pre.map (bootEvent J) ++ [bootEvent J (ChatInProgress, P)],
               List.range (pre.length + 1)⟩, rest, false, true, false⟩) := by
    have hget : (List.map (bootEvent J) pre ++ [bootEvent J (ChatInProgress, P)])[pre.length]? =
        some (bootEvent J (ChatInProgress, P)) := by
      simp
    unfold handleChatSync
    rw [h]
    simp [ChatRsp.new, hget, bootEvent, List.range_eq_range', List.range'_concat]
  refine ⟨hH, ?_⟩
  rw [hH]
  have := filterMap_range_tail [] (pre.map (bootEvent J) ++ [bootEvent J (ChatInProgress, P)])
  simpa [ChatRsp.events, List.range_eq_range'] using this

theorem bootstrap_stops_at_first_in_progress_witness :
    (handleChatSync Json.sample
        ["event:conversation.chat.created", "data:\x7b\"id\":\"7\"\x7d",
         "event:conversation.chat.in_progress", "data:\x7b\"id\":\"7\"\x7d",
         "event:conversation.message.delta", "data:\x7b\x7d"]).2.rsp.events =
      [bootEvent Json.sample ("conversation.chat.created", "\x7b\"id\":\"7\"\x7d"),
       bootEvent Json.sample (ChatInProgress, "\x7b\"id\":\"7\"\x7d")] :=
  (bootstrap_stops_at_first_in_progress Json.sample
    [("conversation.chat.created", "\x7b\"id\":\"7\"\x7d")] "\x7b\"id\":\"7\"\x7d"
    ["event:conversation.message.delta", "data:\x7b\x7d"] (by decide)).2

/-! ## Non-streaming turn -/

theorem Stream_step_never_waits (buff : List ChatEvent) (c : Cursor) (h : c.pc ≠ .wait) :
    (Stream.step buff true c).pc ≠ .wait := by
  obtain ⟨pc, i, sent⟩ := c
  cases pc with
  | wait => exact absurd rfl h
  | closed => simp [Stream.step]
  | head =>
    simp only [Stream.step, Bool.not_true, Bool.or_false, decide_eq_true_eq]
    by_cases hi : i < buff.length
    · have hg : buff[i]? = some buff[i] := List.getElem?_eq_getElem hi
      simp only [hi, if_true, hg]
      split <;> simp
    · simp [hi]

theorem Stream_run_never_waits (buff : List ChatEvent) (n : Nat) (c : Cursor)
    (h : c.pc ≠ .wait) : (Stream.run buff true n c).pc ≠ .wait := by
  induction n generalizing c with
  | zero => exact h
  | succ n ih =>
    rw [Stream_run_succ]
    exact ih _ (Stream_step_never_waits buff c h)

/-- C16. For a non-streaming response whose error is absent or has a code that is
not positive, `Chat` returns a handle, no error; its buffer holds exactly one
event, of kind `chat.in_progress` with the response's data payload, and `done`
is set; a `Stream()` call on it sends that one event and closes its channel,
and at no step is it in the wait. -/
theorem Chat_plain_single_event (J : Json) (ret : ChatReturnWrap)
    (h : ∀ e, ret.ErrorWrap = some e → e.Code ≤ 0) :
    ∃ t, Chat J (.plain ret) = (some t, none) ∧
      t.rsp.events = [⟨ChatInProgress, ret.Data⟩] ∧
      t.rsp.done = true ∧
      t.pump = false ∧
      t.rsp.Stream = ⟨.closed, 1, [⟨ChatInProgress, ret.Data⟩]⟩ ∧
      (∀ k, Stream.run t.rsp.events t.rsp.done (t.rsp.events.length + 1 + k) Cursor.new =
        ⟨.closed, 1, [⟨ChatInProgress, ret.Data⟩]⟩) ∧
      (∀ n, (Stream.run t.rsp.events t.rsp.done n Cursor.new).pc ≠ .wait) := by
  have hC : Chat J (.plain ret) =
      (some ⟨⟨some ret, true, [⟨ChatInProgress, ret.Data⟩], [0]⟩, [], false, false, false⟩,
        none) := by
    cases he : ret.ErrorWrap with
    | none => simp [Chat, he]
    | some e =>
      have hc : ¬ e.Code > 0 := by
        have := h e he
        omega
      simp [Chat, he, hc]
  refine ⟨_, hC, rfl, rfl, rfl, ?_⟩
  have hev : (ChatRsp.mk (some ret) true [⟨ChatInProgress, ret.Data⟩] [0]).events =
      [⟨ChatInProgress, ret.Data⟩] := rfl
  have hrun : ∀ k, Stream.run [(⟨ChatInProgress, ret.Data⟩ : ChatEvent)] true (1 + 1 + k)
      Cursor.new = ⟨.closed, 1, [⟨ChatInProgress, ret.Data⟩]⟩ := by
    intro k
    have := Stream_run_head true [(⟨ChatInProgress, ret.Data⟩ : ChatEvent)] [] [] k (Or.inl rfl)
    simpa [Cursor.new, show ChatInProgress ≠ EventDone by decide] using this
  refine ⟨?_, ?_, ?_⟩
  · have := hrun 0
    simpa [ChatRsp.Stream, hev] using this
  · intro k
    have := hrun k
    simpa [hev] using this
  intro n
  exact Stream_run_never_waits _ n Cursor.new (by simp [Cursor.new])

theorem Chat_plain_single_event_witness :
    ∃ t, Chat Json.sample (.plain ⟨some ⟨0, ""⟩, some ChatEventData.zero⟩) = (some t, none) ∧
      t.rsp.events = [⟨ChatInProgress, some ChatEventData.zero⟩] ∧
      t.rsp.done = true ∧
      t.pump = false ∧
      t.rsp.Stream = ⟨.closed, 1, [⟨ChatInProgress, some ChatEventData.zero⟩]⟩ ∧
      (∀ k, Stream.run t.rsp.events t.rsp.done (t.rsp.events.length + 1 + k) Cursor.new =
        ⟨.closed, 1, [⟨ChatInProgress, some ChatEventData.zero⟩]⟩) ∧
      (∀ n, (Stream.run t.rsp.events t.rsp.done n Cursor.new).pc ≠ .wait) :=
  Chat_plain_single_event Json.sample ⟨some ⟨0, ""⟩, some ChatEventData.zero⟩
    (by
      intro e he
      cases he
      decide)

/-! ## Cancellation of the fold -/

theorem GetResult_select_some (evs : List ChatEvent) (st : Acc) (k : Nat) :
    GetResult.select st evs (some k) =
      match GetResult.loop st (evs.take k) with
      | .ok st1 => .ok st1.result
      | .fault => .fault := by
  induction evs generalizing st k with
  | nil =>
    cases k with
    | zero => simp [GetResult.select, GetResult_loop_nil]
    | succ k => simp [GetResult.select, GetResult_loop_nil]
  | cons e evs ih =>
    cases k with
    | zero => simp [GetResult.select, GetResult_loop_nil]
    | succ k =>
      simp only [GetResult.select, List.take_succ_cons, GetResult_loop_cons, Option.map_some',
        Nat.pred_succ]
      cases GetResult.event st e with
      | ok st1 => exact ih st1 k
      | fault => rfl

theorem GetResult_select_none (evs : List ChatEvent) (st : Acc) :
    GetResult.select st evs none =
      match GetResult.loop st evs with
      | .ok st1 => .ok st1.result
      | .fault => .fault := by
  induction evs generalizing st with
  | nil => simp [GetResult.select, GetResult_loop_nil]
  | cons e evs ih =>
    simp only [GetResult.select, GetResult_loop_cons, Option.map_none']
    cases GetResult.event st e with
    | ok st1 => exact ih st1
    | fault => rfl

/-- C17. A `GetResult` call that takes the `ctx.Done()` case after having received
exactly the first `k` events of the delivered sequence returns the fold of those
`k` events alone: the empty result for `k = 0`, the same result for any other
sequence with the same first `k` events, and a result, not a fault, whenever
those `k` events carry the payloads that are read.  Never cancelled, it returns
the fold of the whole sequence. -/
theorem GetResult_cancelled_is_fold_of_received (evs : List ChatEvent) (k : Nat) :
    GetResult.select Acc.new evs (some k) = GetResult (evs.take k) ∧
    GetResult.select Acc.new evs (some 0) = .ok ChatResult.zero ∧
    (∀ evs1 : List ChatEvent, evs1.take k = evs.take k →
      GetResult.select Acc.new evs1 (some k) = GetResult.select Acc.new evs (some k)) ∧
    ((∀ e ∈ evs.take k, e.isRead = true → e.Data.isSome = true) →
      ∃ r, GetResult.select Acc.new evs (some k) = .ok r) ∧
    GetResult.select Acc.new evs none = GetResult evs := by
  refine ⟨?_, ?_, ?_, ?_, ?_⟩
  · rw [GetResult_select_some, GetResult]
  · rw [GetResult_select_some]
    simp [GetResult_loop_nil, Acc.new]
  · intro evs1 h
    rw [GetResult_select_some, GetResult_select_some, h]
  · intro h
    obtain ⟨st1, h1⟩ := GetResult_loop_ok_of_payloads (evs.take k) Acc.new h
    exact ⟨st1.result, by rw [GetResult_select_some, h1]⟩
  · rw [GetResult_select_none, GetResult]

/-! ## Payloads that are not objects -/

/-- C19. A pump frame of a kind other than `done` whose `data:` line carries a
text that the decoder does not read as a JSON object (empty, invalid, `null`,
or another value) is appended all the same, with the zero-valued payload: the
iteration neither faults nor reports an error, and the loop goes on, or stops
after the append when the kind is `chat.failed`. -/
theorem pump_appends_zero_payload (J : Json) (s : Scan) (K P : String) (rest : List String)
    (hK : K ≠ EventDone) (hP : J.kind P ≠ .object) :
    handleScanEvent.loop J s ((EventPrefixEvent ++ K) :: (EventPrefixData ++ P) :: rest) =
      (if K = ChatFailed then
        (⟨some s.heap.length, s.heap ++ [⟨K, some ChatEventData.zero⟩],
          s.buff ++ [s.heap.length]⟩, .brk, rest)
       else handleScanEvent.loop J
        ⟨some s.heap.length, s.heap ++ [⟨K, some ChatEventData.zero⟩],
          s.buff ++ [s.heap.length]⟩ rest) ∧
    UnmarshalData J P ChatEventData.zero =
      ⟨"", "", "", "", "", "", "", "", 0, none, "", none⟩ := by
  have hU : UnmarshalData J P ChatEventData.zero = ChatEventData.zero := by
    unfold UnmarshalData
    cases hk : J.kind P with
    | object => exact absurd hk hP
    | invalid => rfl
    | null => rfl
    | other => rfl
  refine ⟨?_, hU⟩
  have hD : EventPrefixData ++ P ≠ "" := prefixed_ne_empty _ _ (by decide)
  rw [handleScanEvent_loop_cons, handleScanEvent_row_event]
  simp only []
  rw [handleScanEvent_loop_cons]
  by_cases h2 : K = ChatFailed
  · simp [handleScanEvent.row, hD, HasPrefix_data_line, HasPrefix_append, TrimPrefix_append,
      hK, h2, hU, set_concat_length, show ChatFailed ≠ EventDone by decide]
  · simp [handleScanEvent.row, hD, HasPrefix_data_line, HasPrefix_append, TrimPrefix_append,
      hK, h2, hU, set_concat_length]

theorem pump_appends_zero_payload_witness :
    handleScanEvent.loop Json.sample ⟨none, [], []⟩
        [EventPrefixEvent ++ MessageDelta, EventPrefixData ++ ""] =
      (if MessageDelta = ChatFailed then
        (⟨some 0, [⟨MessageDelta, some ChatEventData.zero⟩], [0]⟩, .brk, [])
       else handleScanEvent.loop Json.sample
        ⟨some 0, [⟨MessageDelta, some ChatEventData.zero⟩], [0]⟩ []) :=
  (pump_appends_zero_payload Json.sample ⟨none, [], []⟩ MessageDelta "" []
    (by decide) (by decide)).1

/-! ## The answer -/

/-- What one received event does to the delta accumulator and to `Answer`. -/
theorem GetResult_event_Answer (st st1 : Acc) (ev : ChatEvent)
    (h : GetResult.event st ev = .ok st1) :
    st1.buff = (if ev.isDelta = true then st.buff ++ ev.content else st.buff) ∧
    st1.result.Answer =
      (if ev.isDelta = true then st.buff ++ ev.content
       else if ev.isAnswer = true then ev.content else st.result.Answer) := by
  obtain ⟨k, d⟩ := ev
  unfold GetResult.event at h
  simp only at h
  by_cases h1 : k = ChatInProgress
  · subst h1
    cases d <;> simp at h
    subst h
    simp [ChatEvent.isDelta, ChatEvent.isAnswer, show ChatInProgress ≠ MessageDelta by decide,
      show ChatInProgress ≠ MessageCompleted by decide]
  by_cases h2 : k = ChatCompleted
  · subst h2
    cases d <;> simp [show ChatCompleted ≠ ChatInProgress by decide] at h
    subst h
    simp [ChatEvent.isDelta, ChatEvent.isAnswer, show ChatCompleted ≠ MessageDelta by decide,
      show ChatCompleted ≠ MessageCompleted by decide]
  by_cases h3 : k = MessageDelta
  · subst h3
    cases d <;> simp [show MessageDelta ≠ ChatInProgress by decide,
      show MessageDelta ≠ ChatCompleted by decide] at h
    subst h
    simp [ChatEvent.isDelta, ChatEvent.content]
  by_cases h4 : k = MessageCompleted
  · subst h4
    cases d with
    | none =>
      simp [show MessageCompleted ≠ ChatInProgress by decide,
        show MessageCompleted ≠ ChatCompleted by decide,
        show MessageCompleted ≠ MessageDelta by decide] at h
    | some d =>
      simp only [show MessageCompleted ≠ ChatInProgress by decide,
        show MessageCompleted ≠ ChatCompleted by decide,
        show MessageCompleted ≠ MessageDelta by decide, if_false, if_true] at h
      by_cases ha : d.Typ = TypeAnswer
      · simp [ha] at h
        subst h
        simp [ChatEvent.isDelta, ChatEvent.isAnswer, ChatEvent.content, ha,
          show MessageCompleted ≠ MessageDelta by decide]
      · by_cases hb : d.Typ = TypeFollowUp
        · simp [hb, show TypeFollowUp ≠ TypeAnswer by decide] at h
          subst h
          simp [ChatEvent.isDelta, ChatEvent.isAnswer, hb,
            show TypeFollowUp ≠ TypeAnswer by decide,
            show MessageCompleted ≠ MessageDelta by decide]
        · simp [ha, hb] at h
          subst h
          simp [ChatEvent.isDelta, ChatEvent.isAnswer, ha,
            show MessageCompleted ≠ MessageDelta by decide]
  by_cases h5 : k = ChatFailed
  · subst h5
    cases d <;> simp [show ChatFailed ≠ ChatInProgress by decide,
      show ChatFailed ≠ ChatCompleted by decide, show ChatFailed ≠ MessageDelta by decide,
      show ChatFailed ≠ MessageCompleted by decide] at h
    subst h
    simp [ChatEvent.isDelta, ChatEvent.isAnswer, show ChatFailed ≠ MessageDelta by decide,
      show ChatFailed ≠ MessageCompleted by decide]
  · simp [h1, h2, h3, h4, h5] at h
    subst h
    simp [ChatEvent.isDelta, ChatEvent.isAnswer, h3, h4]

theorem deltaText_concat (init : String) (evs : List ChatEvent) (e : ChatEvent) :
    deltaText init (evs ++ [e]) =
      if e.isDelta = true then deltaText init evs ++ e.content else deltaText init evs := by
  unfold deltaText
  by_cases h : e.isDelta = true
  · simp [List.filter_append, List.filter_cons, h, List.foldl_append]
  · simp [List.filter_append, List.filter_cons, h]

theorem GetResult_loop_Answer (evs : List ChatEvent) (st st1 : Acc)
    (h : GetResult.loop st evs = .ok st1) :
    st1.buff = deltaText st.buff evs ∧
    st1.result.Answer =
      match (evs.filter (fun e => e.isDelta || e.isAnswer)).getLast? with
      | none => st.result.Answer
      | some e => if e.isDelta = true then deltaText st.buff evs else e.content := by
  induction evs using List.reverseRecOn generalizing st1 with
  | nil =>
    simp [GetResult_loop_nil] at h
    subst h
    simp [deltaText]
  | append_singleton evs e ih =>
    rw [GetResult_loop_append] at h
    cases hl : GetResult.loop st evs with
    | fault => simp [hl] at h
    | ok st2 =>
      simp only [hl, GetResult_loop_cons] at h
      cases he : GetResult.event st2 e with
      | fault => simp [he] at h
      | ok st3 =>
        simp only [he, GetResult_loop_nil] at h
        cases h
        obtain ⟨hb, ha⟩ := GetResult_event_Answer st2 st1 e he
        obtain ⟨ihb, iha⟩ := ih st2 hl
        rw [deltaText_concat]
        by_cases hd : e.isDelta = true
        · simp [List.filter_append, List.filter_cons, hd, hb, ha, ihb]
        · by_cases hans : e.isAnswer = true
          · simp [List.filter_append, List.filter_cons, hd, hans, hb, ha, ihb]
          · simp only [hd, if_false] at hb ha ⊢
            simp only [hans, if_false] at ha
            refine ⟨hb.trans ihb, ?_⟩
            rw [ha, iha]
            simp [List.filter_append, List.filter_cons, hd, hans]

/-- C20. Whenever `GetResult` returns a result, its `Answer` is fixed by the last
event that is a `message.delta` or a `message.completed` of type `answer`: the
content of that `message.completed`, or, for a `message.delta`, the contents of
all `message.delta` events of the sequence concatenated in order, those before
an earlier `message.completed(answer)` included; empty when there is no such
event.  It does return a result when the events it reads carry payloads. -/
theorem GetResult_Answer_is_answerOf (evs : List ChatEvent) :
    (∀ r, GetResult evs = .ok r → r.Answer = answerOf evs) ∧
    ((∀ e ∈ evs, e.isRead = true → e.Data.isSome = true) →
      ∃ r, GetResult evs = .ok r ∧ r.Answer = answerOf evs) ∧
    (∀ a x b : String,
      GetResult [⟨MessageDelta, some { ChatEventData.zero with Content := a }⟩,
                 ⟨MessageCompleted,
                   some { ChatEventData.zero with Typ := TypeAnswer, Content := x }⟩,
                 ⟨MessageDelta, some { ChatEventData.zero with Content := b }⟩] =
        .ok { ChatResult.zero with Answer := a ++ b }) := by
  have hA : ∀ r, GetResult evs = .ok r → r.Answer = answerOf evs := by
    intro r h
    unfold GetResult at h
    cases hl : GetResult.loop Acc.new evs with
    | fault => simp [hl] at h
    | ok st1 =>
      simp only [hl, Run.ok.injEq] at h
      subst h
      rw [(GetResult_loop_Answer evs Acc.new st1 hl).2, answerOf]
      cases (evs.filter (fun e => e.isDelta || e.isAnswer)).getLast? <;>
        simp [Acc.new, ChatResult.zero]
  refine ⟨hA, ?_, ?_⟩
  · intro h
    obtain ⟨st1, h1⟩ := GetResult_loop_ok_of_payloads evs Acc.new h
    have hr : GetResult evs = .ok st1.result := by simp [GetResult, h1]
    exact ⟨st1.result, hr, hA _ hr⟩
  · intro a x b
    simp [GetResult, GetResult_loop_cons, GetResult_loop_nil, GetResult.event, Acc.new,
      ChatResult.zero, ChatEventData.zero,
      show MessageDelta ≠ ChatInProgress by decide,
      show MessageDelta ≠ ChatCompleted by decide,
      show MessageCompleted ≠ ChatInProgress by decide,
      show MessageCompleted ≠ ChatCompleted by decide,
      show MessageCompleted ≠ MessageDelta by decide]

/-! ## Every reader, every schedule -/

theorem Scan_kinds_eq (s : Scan) :
    s.kinds = s.buff.filterMap (fun a => (s.heap[a]?).map (fun e => e.Event)) := by
  simp [Scan.kinds, Scan.events, List.map_filterMap]

/-- Allocating an event leaves the kinds in the buffer as they are. -/
theorem Scan_kinds_alloc (s : Scan) (h : s.Valid) (ev : ChatEvent) (e : Option Nat) :
    Scan.kinds ⟨e, s.heap ++ [ev], s.buff⟩ = s.kinds := by
  rw [Scan_kinds_eq, Scan_kinds_eq]
  apply List.filterMap_congr
  intro a ha
  have hlt := h.1 a ha
  simp [List.getElem?_append_left hlt]

/-- Writing the payload of the event at `a` and appending `a` adds the kind of
that event at the end and changes no other kind. -/
theorem Scan_kinds_append (s : Scan) (a : Nat) (ev : ChatEvent) (d : Option ChatEventData)
    (hev : s.heap[a]? = some ev) :
    Scan.kinds ⟨s.event, s.heap.set a ⟨ev.Event, d⟩, s.buff ++ [a]⟩ = s.kinds ++ [ev.Event] := by
  have hlt : a < s.heap.length := by
    rcases Nat.lt_or_ge a s.heap.length with h | h
    · exact h
    · rw [List.getElem?_eq_none h] at hev
      cases hev
  have hsame : ∀ b : Nat,
      ((s.heap.set a ⟨ev.Event, d⟩)[b]?).map (fun e : ChatEvent => e.Event) =
      (s.heap[b]?).map (fun e : ChatEvent => e.Event) := by
    intro b
    by_cases hb : a = b
    · subst hb
      simp [List.getElem?_set, hlt, hev]
    · simp [List.getElem?_set_ne hb]
  rw [Scan_kinds_eq, Scan_kinds_eq]
  simp only [List.filterMap_append, hsame]
  simp [hev]

/-- One iteration of the pump keeps the pointers valid and only appends kinds. -/
theorem handleScanEvent_row_kinds (J : Json) (s : Scan) (row : String) (h : s.Valid) :
    (handleScanEvent.row J s row).1.Valid ∧
      s.kinds <+: (handleScanEvent.row J s row).1.kinds := by
  unfold handleScanEvent.row
  by_cases h0 : row = ""
  · simp only [h0, if_true]
    exact ⟨h, List.prefix_refl _⟩
  simp only [h0, if_false]
  by_cases h1 : HasPrefix row EventPrefixEvent = true
  · simp only [h1, if_true]
    refine ⟨⟨?_, ?_⟩, ?_⟩
    · intro a ha
      have := h.1 a ha
      simp only [List.length_append, List.length_singleton]
      omega
    · intro a ha
      simp only [Option.some.injEq] at ha
      subst ha
      simp
    · rw [Scan_kinds_alloc s h]
  simp only [h1, Bool.false_eq_true, if_false]
  by_cases h2 : HasPrefix row EventPrefixData = true
  · simp only [h2, if_true]
    cases he : s.event with
    | none => exact ⟨h, List.prefix_refl _⟩
    | some a =>
      simp only []
      cases hh : s.heap[a]? with
      | none => exact ⟨h, List.prefix_refl _⟩
      | some ev =>
        obtain ⟨k, dd⟩ := ev
        have hlt : a < s.heap.length := h.2 a he
        have hV : ∀ d : Option ChatEventData,
            Scan.Valid ⟨some a, s.heap.set a ⟨k, d⟩, s.buff ++ [a]⟩ := by
          intro d
          refine ⟨?_, ?_⟩
          · intro b hb
            simp only [List.length_set]
            rcases List.mem_append.mp hb with hb | hb
            · exact h.1 b hb
            · simp only [List.mem_singleton] at hb
              subst hb
              exact hlt
          · intro b hb
            simp only [List.length_set]
            simp only [Option.some.injEq] at hb
            subst hb
            exact hlt
        have hK : ∀ d : Option ChatEventData,
            s.kinds <+: Scan.kinds ⟨some a, s.heap.set a ⟨k, d⟩, s.buff ++ [a]⟩ := by
          intro d
          have := Scan_kinds_append s a ⟨k, dd⟩ d hh
          rw [he] at this
          rw [this]
          exact List.prefix_append _ _
        simp only []
        by_cases hd : k = EventDone
        · simp only [hd, ne_eq, not_true_eq_false, if_false, true_or, if_true]
          have h1v := hV dd
          have h1k := hK dd
          rw [hd] at h1v h1k
          exact ⟨h1v, h1k⟩
        · simp only [ne_eq, hd, not_false_eq_true, if_true, false_or]
          have h1v := hV (some (UnmarshalData J (TrimPrefix row EventPrefixData)
            ChatEventData.zero))
          have h1k := hK (some (UnmarshalData J (TrimPrefix row EventPrefixData)
            ChatEventData.zero))
          split <;> exact ⟨h1v, h1k⟩
  · simp only [h2, Bool.false_eq_true, if_false]
    exact ⟨h, List.prefix_refl _⟩

theorem handleChatSync_row_valid (J : Json) (s : Scan) (row : String) (h : s.Valid) :
    (handleChatSync.row J s row).1.Valid := by
  unfold handleChatSync.row
  split
  · exact h
  by_cases h1 : HasPrefix row EventPrefixEvent = true
  · simp only [h1, if_true]
    refine ⟨?_, ?_⟩
    · intro a ha
      have := h.1 a ha
      simp only [List.length_append, List.length_singleton]
      omega
    · intro a ha
      simp only [Option.some.injEq] at ha
      subst ha
      simp
  simp only [h1, Bool.false_eq_true, if_false]
  by_cases h2 : HasPrefix row EventPrefixData = true
  · simp only [h2, if_true]
    cases he : s.event with
    | none => exact h
    | some a =>
      simp only []
      cases hh : s.heap[a]? with
      | none => exact h
      | some ev =>
        have hlt : a < s.heap.length := h.2 a he
        have hV : ∀ e1 : ChatEvent, Scan.Valid ⟨some a, s.heap.set a e1, s.buff ++ [a]⟩ := by
          intro e1
          refine ⟨?_, ?_⟩
          · intro b hb
            simp only [List.length_set]
            rcases List.mem_append.mp hb with hb | hb
            · exact h.1 b hb
            · simp only [List.mem_singleton] at hb
              subst hb
              exact hlt
          · intro b hb
            simp only [List.length_set]
            simp only [Option.some.injEq] at hb
            subst hb
            exact hlt
        simp only []
        split <;> exact hV _
  · simp only [h2, Bool.false_eq_true, if_false]
    exact h

theorem handleChatSync_loop_valid (J : Json) (rows : List String) (s : Scan) (h : s.Valid) :
    (handleChatSync.loop J s rows).1.Valid := by
  induction rows generalizing s with
  | nil => exact h
  | cons row rows ih =>
    have hr := handleChatSync_row_valid J s row h
    rw [handleChatSync_loop_cons]
    rcases hrow : handleChatSync.row J s row with ⟨s1, _ | x⟩
    · rw [hrow] at hr
      exact ih s1 hr
    · rw [hrow] at hr
      exact hr

/-- A handle that `Chat` returns has only valid pointers in its buffer, and is
closed only when no pump was submitted. -/
theorem Chat_handle_valid (J : Json) (resp : Response) (t : Turn)
    (h : (Chat J resp).1 = some t) :
    (∀ a ∈ t.rsp.buff, a < t.rsp.heap.length) ∧ (t.rsp.done = true → t.pump = false) := by
  cases resp with
  | plain ret =>
    have hC : Chat J (.plain ret) = (none, (Chat J (.plain ret)).2) ∨
        Chat J (.plain ret) =
          (some ⟨⟨some ret, true, [⟨ChatInProgress, ret.Data⟩], [0]⟩, [], false, false, false⟩,
            none) := by
      cases he : ret.ErrorWrap with
      | none => right; simp [Chat, he]
      | some e =>
        by_cases hc : e.Code > 0
        · left; simp [Chat, he, hc]
        · right; simp [Chat, he, hc]
    rcases hC with hC | hC
    · rw [hC] at h
      cases h
    · rw [hC] at h
      cases h
      exact ⟨by simp, fun _ => rfl⟩
  | stream body =>
    have hv := handleChatSync_loop_valid J body ⟨none, [], []⟩
      ⟨by simp, by simp⟩
    rcases hl : handleChatSync.loop J ⟨none, [], []⟩ body with ⟨s, x, r⟩
    rw [hl] at hv
    cases x <;> simp only [Chat, handleChatSync, hl] at h <;> cases h <;>
      exact ⟨hv.1, by simp [ChatRsp.new]⟩

theorem take_all_prefix_takeWhile (p : String → Bool) (l : List String) (i : Nat)
    (h : ∀ k ∈ l.take i, p k = true) : l.take i <+: l.takeWhile p := by
  induction l generalizing i with
  | nil => simp
  | cons x l ih =>
    cases i with
    | zero => simp
    | succ i =>
      have hx : p x = true := h x (by simp)
      have := ih i (fun k hk => h k (by simp [hk]))
      simp only [List.take_succ_cons, List.takeWhile_cons, hx, if_true]
      exact (List.prefix_cons_inj x).mpr this

theorem takeWhile_eq_take_at (p : String → Bool) (l : List String) (i : Nat) (x : String)
    (h : ∀ k ∈ l.take i, p k = true) (hx : l[i]? = some x) (hp : p x = false) :
    l.takeWhile p = l.take i := by
  induction l generalizing i with
  | nil => simp at hx
  | cons y l ih =>
    cases i with
    | zero =>
      simp only [List.getElem?_cons_zero, Option.some.injEq] at hx
      subst hx
      simp [List.takeWhile_cons, hp]
    | succ i =>
      have hy : p y = true := h y (by simp)
      simp only [List.getElem?_cons_succ] at hx
      have := ih i (fun k hk => h k (by simp [hk])) hx
      simp [List.takeWhile_cons, hy, this]

theorem Reader_Ok_extend (K K1 : List String) (c : Reader) (h : c.Ok K false)
    (hK : K <+: K1) : c.Ok K1 false := by
  obtain ⟨t, rfl⟩ := hK
  obtain ⟨h1, h2, h3, h4, h5, h6⟩ := h
  have htake : (K ++ t).take c.i = K.take c.i := List.take_append_of_le_length h4
  have hget : ∀ k, K[c.i]? = some k → (K ++ t)[c.i]? = some k := by
    intro k hk
    have hlt : c.i < K.length := by
      rcases Nat.lt_or_ge c.i K.length with hl | hl
      · exact hl
      · rw [List.getElem?_eq_none hl] at hk
        cases hk
    rw [List.getElem?_append_left hlt]
    exact hk
  refine ⟨h1, by rw [htake]; exact h2, by rw [htake]; exact h3, ?_, ?_, ?_⟩
  · simp only [List.length_append]
    omega
  · intro hp
    obtain ⟨k, hk, hne⟩ := h5 hp
    exact ⟨k, hget k hk, hne⟩
  · intro hp
    rcases h6 hp with hd | ⟨_, hf⟩
    · exact Or.inl (hget _ hd)
    · cases hf

theorem Reader_Ok_close (K : List String) (c : Reader) (h : c.Ok K false) : c.Ok K true := by
  obtain ⟨h1, h2, h3, h4, h5, h6⟩ := h
  refine ⟨h1, h2, h3, h4, h5, ?_⟩
  intro hp
  rcases h6 hp with hd | ⟨_, hf⟩
  · exact Or.inl hd
  · cases hf

/-- A reader that moves to a control point other than a send or the end, index
and sent events as they were. -/
theorem Reader_Ok_idle (K : List String) (done : Bool) (pc pc1 : RPc) (i : Nat)
    (sent : List ChatEvent) (recv recv1 : Bool) (h : Reader.Ok K done ⟨pc, i, sent, recv⟩)
    (h1 : pc1 ≠ .send) (h2 : pc1 ≠ .sendLocked) (h3 : pc1 ≠ .closed) :
    Reader.Ok K done ⟨pc1, i, sent, recv1⟩ := by
  obtain ⟨a1, a2, a3, a4, _, _⟩ := h
  refine ⟨a1, a2, a3, a4, ?_, ?_⟩
  · intro hp
    rcases hp with hp | hp
    · exact absurd hp h1
    · exact absurd hp h2
  · intro hp
    exact absurd hp h3

/-- A reader that closes its channel at a sentinel. -/
theorem Reader_Ok_sentinel (K : List String) (done : Bool) (pc : RPc) (i : Nat)
    (sent : List ChatEvent) (recv : Bool) (h : Reader.Ok K done ⟨pc, i, sent, recv⟩)
    (hk : K[i]? = some EventDone) : Reader.Ok K done ⟨.closed, i, sent, recv⟩ := by
  obtain ⟨a1, a2, a3, a4, _, _⟩ := h
  refine ⟨a1, a2, a3, a4, ?_, ?_⟩
  · intro hp
    rcases hp with hp | hp <;> cases hp
  · intro _
    exact Or.inl hk

/-- A reader that goes to send the entry at its index. -/
theorem Reader_Ok_to_send (K : List String) (done : Bool) (pc pc1 : RPc) (i : Nat)
    (sent : List ChatEvent) (recv : Bool) (h : Reader.Ok K done ⟨pc, i, sent, recv⟩)
    (k : String) (hk : K[i]? = some k) (hne : k ≠ EventDone) (h3 : pc1 ≠ .closed) :
    Reader.Ok K done ⟨pc1, i, sent, recv⟩ := by
  obtain ⟨a1, a2, a3, a4, _, _⟩ := h
  refine ⟨a1, a2, a3, a4, ?_, ?_⟩
  · intro _
    exact ⟨k, hk, hne⟩
  · intro hp
    exact absurd hp h3

/-- A reader whose send was taken. -/
theorem Reader_Ok_sent (K : List String) (done : Bool) (pc : RPc) (i : Nat)
    (sent : List ChatEvent) (recv : Bool) (h : Reader.Ok K done ⟨pc, i, sent, recv⟩)
    (hpc : pc = .send ∨ pc = .sendLocked) (ev : ChatEvent) (hk : K[i]? = some ev.Event) :
    Reader.Ok K done ⟨.head, i + 1, sent ++ [ev], recv⟩ := by
  obtain ⟨a1, a2, a3, a4, a5, _⟩ := h
  simp only at a1 a2 a3 a4 a5
  obtain ⟨k, hk1, hne⟩ := a5 hpc
  have hke : k = ev.Event := by
    rw [hk] at hk1
    exact (Option.some.inj hk1).symm
  subst hke
  have hlt : i < K.length := by
    rcases Nat.lt_or_ge i K.length with hl | hl
    · exact hl
    · rw [List.getElem?_eq_none hl] at hk
      cases hk
  have htake : K.take (i + 1) = K.take i ++ [ev.Event] := by
    rw [List.take_succ, hk]
    rfl
  refine ⟨?_, ?_, ?_, ?_, ?_, ?_⟩
  · simp [a1]
  · simp only [List.map_append, List.map_cons, List.map_nil, a2, htake]
  · intro x hx
    simp only [htake, List.mem_append, List.mem_singleton] at hx
    rcases hx with hx | hx
    · exact a3 x hx
    · subst hx
      exact hne
  · exact hlt
  · intro hp
    rcases hp with hp | hp <;> cases hp
  · intro hp
    cases hp

/-- A reader that leaves its loop because the condition at the head is false. -/
theorem Reader_Ok_end (K : List String) (pc : RPc) (i : Nat) (sent : List ChatEvent)
    (recv : Bool) (h : Reader.Ok K true ⟨pc, i, sent, recv⟩) (hge : K.length ≤ i) :
    Reader.Ok K true ⟨.closed, i, sent, recv⟩ := by
  obtain ⟨a1, a2, a3, a4, _, _⟩ := h
  simp only at a4
  refine ⟨a1, a2, a3, a4, ?_, ?_⟩
  · intro hp
    rcases hp with hp | hp <;> cases hp
  · intro _
    exact Or.inr ⟨by simp only; omega, rfl⟩

theorem Scan_kinds_getElem (s : Scan) (i : Nat) (ev : ChatEvent)
    (h : s.events[i]? = some ev) : s.kinds[i]? = some ev.Event := by
  simp [Scan.kinds, h]

theorem Scan_kinds_length (s : Scan) : s.kinds.length = s.events.length := by
  simp [Scan.kinds]

/-- Putting a reader that is in order in place of reader `j` keeps the world in
order, whoever holds the lock. -/
theorem World_Ok_set (w : World) (h : w.Ok) (j : Nat) (c1 : Reader) (lock1 : Option Nat)
    (hc : c1.Ok w.scan.kinds w.done) :
    World.Ok { w with lock := lock1, readers := w.readers.set j c1 } := by
  refine ⟨h.1, h.2.1, ?_⟩
  intro c hmem
  rcases List.mem_or_eq_of_mem_set hmem with hm | hm
  · exact h.2.2 c hm
  · subst hm
    exact hc

/-- A step of a reader keeps the world in order. -/
theorem World_readerStep_ok (w w1 : World) (j : Nat) (h : w.Ok)
    (hs : w.readerStep j = some w1) : w1.Ok := by
  unfold World.readerStep at hs
  cases hc : w.readers[j]? with
  | none => simp [hc] at hs
  | some c =>
    obtain ⟨pc, i, sent, recv⟩ := c
    have hOk : Reader.Ok w.scan.kinds w.done ⟨pc, i, sent, recv⟩ :=
      h.2.2 _ (List.getElem?_mem hc)
    simp only [hc] at hs
    cases pc with
    | closed => simp at hs
    | head =>
      simp only at hs
      by_cases hcond : (decide (i < w.scan.events.length) || !w.done) = true
      · simp only [hcond, if_true] at hs
        cases hev : w.scan.events[i]? with
        | none =>
          simp only [hev, Option.some.injEq] at hs
          subst hs
          exact World_Ok_set w h j _ w.lock
            (Reader_Ok_idle _ _ _ .lock _ _ _ _ hOk (by decide) (by decide) (by decide))
        | some ev =>
          simp only [hev] at hs
          by_cases hd : ev.Event = EventDone
          · simp only [hd, if_true, Option.some.injEq] at hs
            subst hs
            have hk := Scan_kinds_getElem w.scan i ev hev
            rw [hd] at hk
            exact World_Ok_set w h j _ w.lock (Reader_Ok_sentinel _ _ _ _ _ _ hOk hk)
          · simp only [hd, if_false, Option.some.injEq] at hs
            subst hs
            exact World_Ok_set w h j _ w.lock
              (Reader_Ok_to_send _ _ _ .send _ _ _ hOk ev.Event
                (Scan_kinds_getElem w.scan i ev hev) hd (by decide))
      · simp only [hcond, Bool.false_eq_true, if_false, Option.some.injEq] at hs
        subst hs
        simp only [Bool.or_eq_true, decide_eq_true_eq, Bool.not_eq_true', not_or,
          Nat.not_lt, Bool.not_eq_false] at hcond
        have hdone : w.done = true := hcond.2
        have hge : w.scan.kinds.length ≤ i := by
          rw [Scan_kinds_length]
          exact hcond.1
        rw [hdone] at hOk
        have := Reader_Ok_end _ _ _ _ _ hOk hge
        rw [← hdone] at this
        exact World_Ok_set w h j _ w.lock this
    | send =>
      simp only at hs
      cases hev : w.scan.events[i]? with
      | none => simp [hev] at hs
      | some ev =>
        simp only [hev] at hs
        cases recv with
        | false => simp at hs
        | true =>
          simp only [if_true, Option.some.injEq] at hs
          subst hs
          exact World_Ok_set w h j _ w.lock
            (Reader_Ok_sent _ _ _ _ _ _ hOk (Or.inl rfl) ev
              (Scan_kinds_getElem w.scan i ev hev))
    | sendLocked =>
      simp only at hs
      cases hev : w.scan.events[i]? with
      | none => simp [hev] at hs
      | some ev =>
        simp only [hev] at hs
        cases recv with
        | false => simp at hs
        | true =>
          simp only [if_true, Option.some.injEq] at hs
          subst hs
          exact World_Ok_set w h j _ none
            (Reader_Ok_sent _ _ _ _ _ _ hOk (Or.inr rfl) ev
              (Scan_kinds_getElem w.scan i ev hev))
    | lock =>
      simp only at hs
      by_cases hl : w.lock.isSome = true
      · simp [hl] at hs
      · simp only [hl, Bool.false_eq_true, if_false] at hs
        cases hev : w.scan.events[i]? with
        | none =>
          simp only [hev, Option.some.injEq] at hs
          subst hs
          exact World_Ok_set w h j _ w.lock
            (Reader_Ok_idle _ _ _ .wait _ _ _ _ hOk (by decide) (by decide) (by decide))
        | some ev =>
          simp only [hev] at hs
          by_cases hd : ev.Event = EventDone
          · simp only [hd, if_true, Option.some.injEq] at hs
            subst hs
            have hk := Scan_kinds_getElem w.scan i ev hev
            rw [hd] at hk
            exact World_Ok_set w h j _ w.lock (Reader_Ok_sentinel _ _ _ _ _ _ hOk hk)
          · simp only [hd, if_false, Option.some.injEq] at hs
            subst hs
            exact World_Ok_set w h j _ (some j)
              (Reader_Ok_to_send _ _ _ .sendLocked _ _ _ hOk ev.Event
                (Scan_kinds_getElem w.scan i ev hev) hd (by decide))
    | wait =>
      simp only at hs
      by_cases hl : w.lock.isSome = true
      · simp [hl] at hs
      · simp only [hl, Bool.false_eq_true, if_false] at hs
        cases hev : w.scan.events[i]? with
        | none => simp [hev] at hs
        | some ev =>
          simp only [hev] at hs
          by_cases hd : ev.Event = EventDone
          · simp only [hd, if_true, Option.some.injEq] at hs
            subst hs
            have hk := Scan_kinds_getElem w.scan i ev hev
            rw [hd] at hk
            exact World_Ok_set w h j _ w.lock (Reader_Ok_sentinel _ _ _ _ _ _ hOk hk)
          · simp only [hd, if_false, Option.some.injEq] at hs
            subst hs
            exact World_Ok_set w h j _ (some j)
              (Reader_Ok_to_send _ _ _ .sendLocked _ _ _ hOk ev.Event
                (Scan_kinds_getElem w.scan i ev hev) hd (by decide))

/-- A step of the pump keeps the world in order: it only appends kinds, and it
sets `done` only when it returns. -/
theorem World_pumpStep_ok (J : Json) (w w1 : World) (h : w.Ok)
    (hs : w.pumpStep J = some w1) : w1.Ok := by
  unfold World.pumpStep at hs
  cases hp : w.pump with
  | finished => simp [hp] at hs
  | faulted => simp [hp] at hs
  | closing =>
    simp only [hp, Option.some.injEq] at hs
    subst hs
    have hd : w.done = false := by
      cases hdn : w.done with
      | false => rfl
      | true =>
        have := h.2.1 hdn
        rw [hp] at this
        cases this
    refine ⟨h.1, fun _ => rfl, ?_⟩
    intro c hc
    have := h.2.2 c hc
    rw [hd] at this
    exact Reader_Ok_close _ c this
  | reading =>
    have hd : w.done = false := by
      cases hdn : w.done with
      | false => rfl
      | true =>
        have := h.2.1 hdn
        rw [hp] at this
        cases this
    simp only [hp] at hs
    cases hr : w.rows with
    | nil =>
      simp only [hr, Option.some.injEq] at hs
      subst hs
      refine ⟨h.1, ?_, h.2.2⟩
      intro hdn
      simp only at hdn
      rw [hd] at hdn
      cases hdn
    | cons row rest =>
      simp only [hr] at hs
      have hk := handleScanEvent_row_kinds J w.scan row h.1
      rcases hrow : handleScanEvent.row J w.scan row with ⟨s1, x⟩
      rw [hrow] at hk
      simp only [hrow] at hs
      split at hs
      · cases hs
      · simp only [Option.some.injEq] at hs
        subst hs
        refine ⟨hk.1, ?_, ?_⟩
        · intro hdn
          simp only at hdn
          rw [hd] at hdn
          cases hdn
        · intro c hc
          have := h.2.2 c hc
          rw [hd] at this
          have h2 := Reader_Ok_extend _ _ c this hk.2
          simp only
          rw [hd]
          exact h2

theorem World_cancel_ok (w w1 : World) (j : Nat) (h : w.Ok) (hs : w.cancel j = some w1) :
    w1.Ok := by
  unfold World.cancel at hs
  cases hc : w.readers[j]? with
  | none => simp [hc] at hs
  | some c =>
    simp only [hc, Option.some.injEq] at hs
    subst hs
    have hOk : c.Ok w.scan.kinds w.done := h.2.2 _ (List.getElem?_mem hc)
    exact World_Ok_set w h j _ w.lock hOk

theorem World_run_ok (J : Json) (sched : List Act) (w w1 : World) (h : w.Ok)
    (hs : World.run J w sched = some w1) : w1.Ok := by
  induction sched generalizing w with
  | nil =>
    simp only [World.run, Option.some.injEq] at hs
    subst hs
    exact h
  | cons a as ih =>
    simp only [World.run] at hs
    cases hstep : w.step J a with
    | none => simp [hstep] at hs
    | some w2 =>
      simp only [hstep] at hs
      refine ih w2 ?_ hs
      cases a with
      | pump => exact World_pumpStep_ok J w w2 h hstep
      | reader j => exact World_readerStep_ok w w2 j h hstep
      | cancel j => exact World_cancel_ok w w2 j h hstep

theorem World_start_ok (J : Json) (resp : Response) (t : Turn) (n : Nat)
    (h : (Chat J resp).1 = some t) : (World.start t n).Ok := by
  obtain ⟨hv, hd⟩ := Chat_handle_valid J resp t h
  refine ⟨⟨hv, by simp [World.start]⟩, ?_, ?_⟩
  · intro hdn
    have := hd hdn
    simp [World.start, this]
  · intro c hc
    have : c = Reader.new := by
      simp only [World.start] at hc
      exact List.eq_of_mem_replicate hc
    subst this
    refine ⟨rfl, by simp [Reader.new], by simp [Reader.new], by simp [Reader.new], ?_, ?_⟩
    · intro hp
      rcases hp with hp | hp <;> cases hp
    · intro hp
      cases hp

/-- C6. For every handle that `Chat` returns, every number of `Stream()` calls
made on it and every schedule of the pump, the readers and cancellations, in
the state reached each reader has sent one event for each of the first `i`
buffer entries, in order and of that entry's kind, none of kind `done` and none
from behind the first `done`: the kinds it has sent are a prefix of the longest
prefix of the buffer without a `done` event, and are exactly that prefix once
the reader has closed its channel.  This covers the delivery from the waiting
branch, where a live reader meets the `done` frame that the pump appends.
Against a buffer of any content that no longer changes, a call has sent, after
`len + 1` steps, exactly the events of the longest prefix without a `done`
event, and at no step anything else than a prefix of it. -/
theorem reader_sends_up_to_first_done (J : Json) (resp : Response) (t : Turn) (n : Nat)
    (sched : List Act) (w : World)
    (hC : (Chat J resp).1 = some t)
    (hrun : World.run J (World.start t n) sched = some w) :
    (∀ c ∈ w.readers,
      (∀ e ∈ c.sent, e.Event ≠ EventDone) ∧
      c.sent.length = c.i ∧
      c.sent.map (fun e => e.Event) = w.scan.kinds.take c.i ∧
      c.sent.map (fun e => e.Event) <+:
        w.scan.kinds.takeWhile (fun k => decide (k ≠ EventDone)) ∧
      (c.pc = .closed →
        c.sent.map (fun e => e.Event) =
          w.scan.kinds.takeWhile (fun k => decide (k ≠ EventDone)))) ∧
    (∀ (buff : List ChatEvent) (done : Bool),
      (∀ k, (Stream.run buff done (buff.length + 1 + k) Cursor.new).sent =
          buff.takeWhile (fun e => decide (e.Event ≠ EventDone))) ∧
      (∀ m, (Stream.run buff done m Cursor.new).sent <+:
          buff.takeWhile (fun e => decide (e.Event ≠ EventDone))) ∧
      (∀ m, ∀ e ∈ (Stream.run buff done m Cursor.new).sent, e.Event ≠ EventDone) ∧
      (∀ k, (Stream.run buff true (buff.length + 1 + k) Cursor.new).pc = .closed)) := by
  have hOk := World_run_ok J sched _ w (World_start_ok J resp t n hC) hrun
  refine ⟨?_, ?_⟩
  · intro c hc
    obtain ⟨h1, h2, h3, h4, _, h6⟩ := hOk.2.2 c hc
    have hp : ∀ k ∈ w.scan.kinds.take c.i, decide (k ≠ EventDone) = true := by
      intro k hk
      simpa using h3 k hk
    refine ⟨?_, h1, h2, ?_, ?_⟩
    · intro e he
      have hmem : e.Event ∈ c.sent.map (fun e => e.Event) := List.mem_map_of_mem _ he
      rw [h2] at hmem
      exact h3 _ hmem
    · rw [h2]
      exact take_all_prefix_takeWhile _ _ _ hp
    · intro hcl
      rw [h2]
      rcases h6 hcl with hd | ⟨hlen, _⟩
      · exact (takeWhile_eq_take_at _ _ _ _ hp hd (by simp)).symm
      · rw [hlen, List.take_length] at hp ⊢
        exact (List.takeWhile_eq_self_iff.mpr hp).symm
  · intro buff done
    obtain ⟨f1, f2, f3, f4, _⟩ := Stream_stops_at_first_done buff done
    exact ⟨f1, f2, f3, f4⟩

theorem reader_sends_up_to_first_done_witness :
    ∃ w, World.run Json.sample
        (World.start ⟨⟨some ⟨none, some ChatEventData.zero⟩, false,
            [⟨ChatInProgress, some ChatEventData.zero⟩], [0]⟩,
          ["event:conversation.message.delta", "data:\x7b\x7d", "event:done",
           "data:\x7b\x7d"], false, true, false⟩ 1)
        [.reader 0, .reader 0, .reader 0, .reader 0, .pump, .pump, .reader 0, .reader 0,
         .reader 0, .reader 0, .pump, .pump, .reader 0] = some w ∧
      w.readers.map (fun c => (c.pc, c.i)) = [(.closed, 2)] ∧
      w.scan.kinds = [ChatInProgress, MessageDelta, EventDone] ∧
      ∀ c ∈ w.readers,
        (∀ e ∈ c.sent, e.Event ≠ EventDone) ∧
        c.sent.length = c.i ∧
        c.sent.map (fun e => e.Event) = w.scan.kinds.take c.i ∧
        c.sent.map (fun e => e.Event) <+:
          w.scan.kinds.takeWhile (fun k => decide (k ≠ EventDone)) ∧
        (c.pc = .closed →
          c.sent.map (fun e => e.Event) =
            w.scan.kinds.takeWhile (fun k => decide (k ≠ EventDone))) :=
  ⟨_, rfl, by decide, by decide,
    (reader_sends_up_to_first_done Json.sample
      (.stream ["event:conversation.chat.in_progress", "data:\x7b\x7d",
        "event:conversation.message.delta", "data:\x7b\x7d", "event:done",
        "data:\x7b\x7d"])
      ⟨⟨some ⟨none, some ChatEventData.zero⟩, false,
          [⟨ChatInProgress, some ChatEventData.zero⟩], [0]⟩,
        ["event:conversation.message.delta", "data:\x7b\x7d", "event:done",
         "data:\x7b\x7d"], false, true, false⟩ 1
      [.reader 0, .reader 0, .reader 0, .reader 0, .pump, .pump, .reader 0, .reader 0,
       .reader 0, .reader 0, .pump, .pump, .reader 0] _ (by decide) rfl).1⟩

/-- C2 (the code at the failing input). Two `Stream()` calls on one handle whose
body ends without a `done` frame, first after the `chat.in_progress` frame, then
after a `chat.failed` frame.  Reader 0 runs beside the pump and is in
`cond.Wait` at the end of the log when the pump sets `done`; reader 1 runs after
that.  Both have sent the whole sequence, but only reader 1 closes its channel:
reader 0 stays in the wait with the buffer closed and no step enabled. -/
theorem stream_beside_pump_misses_end_of_stream :
    ((Chat Json.sample (.stream ["event:conversation.chat.in_progress", "data:\x7b\x7d"])).1.bind
        (fun t => World.run Json.sample (World.start t 2)
          [.reader 0, .reader 0, .reader 0, .reader 0, .pump, .pump,
           .reader 1, .reader 1, .reader 1])).map
      (fun w => (w.readers.map (fun c => (c.pc, c.sent.map (fun e => e.Event))),
                 w.scan.kinds, w.done && w.stuck Json.sample)) =
      some ([(.wait, [ChatInProgress]), (.closed, [ChatInProgress])],
            [ChatInProgress], true) ∧
    ((Chat Json.sample (.stream ["event:conversation.chat.in_progress", "data:\x7b\x7d",
          "event:conversation.chat.failed", "data:\x7b\x7d"])).1.bind
        (fun t => World.run Json.sample (World.start t 2)
          [.reader 0, .reader 0, .reader 0, .reader 0, .pump, .pump,
           .reader 0, .reader 0, .reader 0, .reader 0, .pump,
           .reader 1, .reader 1, .reader 1, .reader 1, .reader 1])).map
      (fun w => (w.readers.map (fun c => (c.pc, c.sent.map (fun e => e.Event))),
                 w.scan.kinds, w.done && w.stuck Json.sample)) =
      some ([(.wait, [ChatInProgress, ChatFailed]), (.closed, [ChatInProgress, ChatFailed])],
            [ChatInProgress, ChatFailed], true) := by
  decide

theorem UnmarshalData_skips_space (J : Json) (P : String) (d : ChatEventData)
    (hJ : ∀ T, J.kind (" " ++ T) = J.kind T ∧ J.intoData (" " ++ T) = J.intoData T) :
    UnmarshalData J (" " ++ P) d = UnmarshalData J P d := by
  simp only [UnmarshalData, (hJ P).1, (hJ P).2]

theorem UnmarshalDataPtr_skips_space (J : Json) (P : String) (d : Option ChatEventData)
    (hJ : ∀ T, J.kind (" " ++ T) = J.kind T ∧ J.intoData (" " ++ T) = J.intoData T) :
    UnmarshalDataPtr J (" " ++ P) d = UnmarshalDataPtr J P d := by
  simp only [UnmarshalDataPtr, (hJ P).1, (hJ P).2]

theorem Json_sampleSpaced_skips_space (T : String) :
    Json.sampleSpaced.kind (" " ++ T) = Json.sampleSpaced.kind T ∧
      Json.sampleSpaced.intoData (" " ++ T) = Json.sampleSpaced.intoData T := by
  have h : dropSpaces (" " ++ T) = dropSpaces T := by
    have hd : (" " ++ T).data = ' ' :: T.data := by
      simp [String.data_append]
    simp [dropSpaces, hd, List.dropWhile_cons]
  simp only [Json.sampleSpaced, h, and_self]

/-- C8 (amended). For every kind `K` and payload text `P`: the line `event:K`, the
prefix directly followed by `K`, is decoded as a frame of kind exactly `K`, by
the pump and by the bootstrap; `event:done` is the sentinel (the pump appends
it without payload and stops), `event:conversation.chat.failed` ends the pump
and `event:conversation.chat.in_progress` ends the bootstrap, the lines behind
the frame left unread.  The payload of `data:P` is decoded from `P`, and so is
the payload of `data: P`: with a decoder that skips a leading space, as
`encoding/json` does, both loops do on `data: P` exactly what they do on
`data:P`. -/
theorem event_and_data_lines_decode (J : Json) (K P : String) (rest : List String) :
    TrimPrefix (EventPrefixEvent ++ K) EventPrefixEvent = K ∧
    TrimPrefix (EventPrefixData ++ P) EventPrefixData = P ∧
    TrimPrefix (EventPrefixData ++ (" " ++ P)) EventPrefixData = " " ++ P ∧
    handleScanEvent.loop J ⟨none, [], []⟩
        ((EventPrefixEvent ++ K) :: (EventPrefixData ++ P) :: rest) =
      (if K = EventDone then (⟨some 0, [⟨K, none⟩], [0]⟩, .brk, rest)
       else if K = ChatFailed then
         (⟨some 0, [⟨K, some (UnmarshalData J P ChatEventData.zero)⟩], [0]⟩, .brk, rest)
       else handleScanEvent.loop J
         ⟨some 0, [⟨K, some (UnmarshalData J P ChatEventData.zero)⟩], [0]⟩ rest) ∧
    handleChatSync.loop J ⟨none, [], []⟩
        ((EventPrefixEvent ++ K) :: (EventPrefixData ++ P) :: rest) =
      (if K = ChatInProgress then
         (⟨some 0, [⟨K, UnmarshalDataPtr J P (some ChatEventData.zero)⟩], [0]⟩, .brk, rest)
       else handleChatSync.loop J
         ⟨some 0, [⟨K, UnmarshalDataPtr J P (some ChatEventData.zero)⟩], [0]⟩ rest) ∧
    handleScanEvent.loop J ⟨none, [], []⟩ ("event:done" :: (EventPrefixData ++ P) :: rest) =
      (⟨some 0, [⟨EventDone, none⟩], [0]⟩, .brk, rest) ∧
    handleScanEvent.loop J ⟨none, [], []⟩
        ("event:conversation.chat.failed" :: (EventPrefixData ++ P) :: rest) =
      (⟨some 0, [⟨ChatFailed, some (UnmarshalData J P ChatEventData.zero)⟩], [0]⟩, .brk, rest) ∧
    handleChatSync.loop J ⟨none, [], []⟩
        ("event:conversation.chat.in_progress" :: (EventPrefixData ++ P) :: rest) =
      (⟨some 0, [⟨ChatInProgress, UnmarshalDataPtr J P (some ChatEventData.zero)⟩], [0]⟩,
        .brk, rest) ∧
    ((∀ T, J.kind (" " ++ T) = J.kind T ∧ J.intoData (" " ++ T) = J.intoData T) →
      UnmarshalData J (" " ++ P) ChatEventData.zero = UnmarshalData J P ChatEventData.zero ∧
      handleScanEvent.loop J ⟨none, [], []⟩
          ((EventPrefixEvent ++ K) :: (EventPrefixData ++ (" " ++ P)) :: rest) =
        handleScanEvent.loop J ⟨none, [], []⟩
          ((EventPrefixEvent ++ K) :: (EventPrefixData ++ P) :: rest) ∧
      handleChatSync.loop J ⟨none, [], []⟩
          ((EventPrefixEvent ++ K) :: (EventPrefixData ++ (" " ++ P)) :: rest) =
        handleChatSync.loop J ⟨none, [], []⟩
          ((EventPrefixEvent ++ K) :: (EventPrefixData ++ P) :: rest)) := by
  obtain ⟨a1, a2, a3, a4, a5, a6, a7⟩ := unspaced_lines_decode_exactly J K P rest
  obtain ⟨_, _, b3, b4, _, _, _⟩ := unspaced_lines_decode_exactly J K (" " ++ P) rest
  refine ⟨a1, a2, TrimPrefix_append _ _, a3, a4, a5, a6, a7, ?_⟩
  intro hJ
  refine ⟨UnmarshalData_skips_space J P _ hJ, ?_, ?_⟩
  · rw [b3, a3, UnmarshalData_skips_space J P _ hJ]
  · rw [b4, a4, UnmarshalDataPtr_skips_space J P _ hJ]

theorem event_and_data_lines_decode_witness :
    handleScanEvent.loop Json.sampleSpaced ⟨none, [], []⟩
        ["event:conversation.message.delta", "data: \x7b\"id\":\"1\"\x7d"] =
      handleScanEvent.loop Json.sampleSpaced ⟨none, [], []⟩
        ["event:conversation.message.delta", "data:\x7b\"id\":\"1\"\x7d"] ∧
    (handleScanEvent.loop Json.sampleSpaced ⟨none, [], []⟩
        ["event:conversation.message.delta", "data: \x7b\"id\":\"1\"\x7d"]).1.events =
      [⟨MessageDelta, some { ChatEventData.zero with Id := "1" }⟩] :=
  ⟨((event_and_data_lines_decode Json.sampleSpaced MessageDelta "\x7b\"id\":\"1\"\x7d"
      []).2.2.2.2.2.2.2.2 Json_sampleSpaced_skips_space).2.1, by decide⟩

end Coze
